import Mathlib

/-!
# Verification of the fastify-socket-server core

Shallow embedding of the repository's room store (`RoomStorage`), subscription
registry (`SubscriberService`), parameter validator (`EventDataValidator`),
dynamic event router (`handleDynamicEvents`) and presence store
(`RedisStorage`), together with proofs and refutations of the spec's claims.

Modelling conventions:
* JS strings are `String`/`List Char`; JS numbers are `Int` (the claims never
  depend on floating-point behaviour); `undefined` is `Option.none` where it
  can occur.
* The Redis backing store is modelled as explicit functional state; a store
  round trip (one awaited redis command) is one atomic step of the model.
* Regex-based replacements from the source are implemented directly with the
  concrete semantics of the concrete patterns appearing in the source.
-/

namespace FSS

/-! ## JS character classes (`\w`, `\s`) used by the source's regexes -/

/-- JS `\w`: ASCII letters, digits and underscore. -/
def isWordChar (c : Char) : Bool := c.isAlphanum || c == '_'

/-- JS `\s` (ASCII core): space, tab, newline, carriage return, vertical tab,
form feed. -/
def isJsWs (c : Char) : Bool :=
  ((c == ' ' || c == '\t') || (c == '\n' || c == '\r')) || (c == '\x0b' || c == '\x0c')

/-- Case-insensitive prefix match: if `pat` is a case-insensitive prefix of
`cs`, return the remaining suffix. -/
def ciPrefix : List Char → List Char → Option (List Char)
  | [], cs => some cs
  | _ :: _, [] => none
  | p :: ps, c :: cs => if p.toLower == c.toLower then ciPrefix ps cs else none

theorem ciPrefix_length {ps cs r : List Char} (h : ciPrefix ps cs = some r) :
    cs.length = ps.length + r.length := by
  induction ps generalizing cs with
  | nil => simp [ciPrefix] at h; simp [h]
  | cons p ps ih =>
    cases cs with
    | nil => simp [ciPrefix] at h
    | cons c cs =>
      simp only [ciPrefix] at h
      split at h
      · have := ih h; simp [this]; omega
      · exact absurd h (by simp)

/-- The characters of the literal `</script>`. -/
def closeScript : List Char := ['<', '/', 's', 'c', 'r', 'i', 'p', 't', '>']

/-- The characters of the literal `<script`. -/
def openScript : List Char := ['<', 's', 'c', 'r', 'i', 'p', 't']

/-- Scan for the first case-insensitive occurrence of `</script>` and return
the suffix just after it. -/
def findCloseScript : List Char → Option (List Char)
  | [] => none
  | c :: rest =>
    match ciPrefix closeScript (c :: rest) with
    | some tail => some tail
    | none => findCloseScript rest

theorem findCloseScript_length {cs t : List Char} (h : findCloseScript cs = some t) :
    t.length + 9 ≤ cs.length := by
  induction cs with
  | nil => simp [findCloseScript] at h
  | cons c rest ih =>
    simp only [findCloseScript] at h
    split at h
    · rename_i tail hp
      have := ciPrefix_length hp
      simp only [Option.some.injEq] at h
      subst h
      simp [closeScript] at this
      simp
      omega
    · have := ih h
      simp
      omega

/-- `\b` after `<script`: the next character (if any) must not be a word
character. -/
def scriptBoundary : List Char → Bool
  | [] => true
  | c :: _ => !isWordChar c

/-- Semantics of `value.replace(/<script\b[^<]*(?:(?!<\/script>)<[^<]*)*<\/script>/gi, '')`:
each match runs from a case-insensitive `<script` followed by a non-word
character up to and including the next case-insensitive `</script>`; matches
are removed left to right, scanning resumes after each removed match. -/
def stripScriptTags : List Char → List Char
  | [] => []
  | c :: rest =>
    match hp : ciPrefix openScript (c :: rest) with
    | some after =>
      if scriptBoundary after then
        match hf : findCloseScript after with
        | some tail =>
          have h1 : (c :: rest).length = 7 + after.length := by
            have := ciPrefix_length hp; simpa [openScript] using this
          have h2 : tail.length + 9 ≤ after.length := findCloseScript_length hf
          stripScriptTags tail
        | none => c :: stripScriptTags rest
      else c :: stripScriptTags rest
    | none => c :: stripScriptTags rest
  termination_by cs => cs.length
  decreasing_by
    · simp at h1 ⊢; omega
    · simp
    · simp
    · simp

/-- The characters of the literal `javascript:`. -/
def jsUri : List Char := ['j', 'a', 'v', 'a', 's', 'c', 'r', 'i', 'p', 't', ':']

/-- Semantics of `.replace(/javascript:/gi, '')`. -/
def stripJsUri : List Char → List Char
  | [] => []
  | c :: rest =>
    match hp : ciPrefix jsUri (c :: rest) with
    | some tail =>
      have : (c :: rest).length = 11 + tail.length := by
        have := ciPrefix_length hp; simpa [jsUri] using this
      stripJsUri tail
    | none => c :: stripJsUri rest
  termination_by cs => cs.length
  decreasing_by
    · simp at this ⊢; omega
    · simp

/-- Semantics of `.replace(/on\w+\s*=/gi, '')`: `on`, then one or more word
characters (only the maximal run can be followed by `\s*=`, so greedy matching
needs no backtracking here), optional whitespace, then `=`. -/
def stripOnAttr : List Char → List Char
  | [] => []
  | c :: rest =>
    match hp : ciPrefix ['o', 'n'] (c :: rest) with
    | some t1 =>
      if hrun : (t1.takeWhile isWordChar) ≠ [] then
        match ht : t1.dropWhile isWordChar |>.dropWhile isJsWs with
        | '=' :: t4 =>
          have hlen : t4.length + 3 ≤ (c :: rest).length := by
            have h1 : (c :: rest).length = 2 + t1.length := by
              have := ciPrefix_length hp; simpa using this
            have h2 : (t1.dropWhile isWordChar).length ≤ t1.length :=
              (t1.dropWhile_sublist isWordChar).length_le
            have h3 : ((t1.dropWhile isWordChar).dropWhile isJsWs).length ≤
                (t1.dropWhile isWordChar).length :=
              ((t1.dropWhile isWordChar).dropWhile_sublist isJsWs).length_le
            rw [ht] at h3
            simp at h3
            omega
          stripOnAttr t4
        | _ => c :: stripOnAttr rest
      else c :: stripOnAttr rest
    | none => c :: stripOnAttr rest
  termination_by cs => cs.length
  decreasing_by
    · simp at hlen ⊢; omega
    · simp
    · simp
    · simp

/-- JS `String.prototype.trim`: strip whitespace from both ends. -/
def jsTrim (cs : List Char) : List Char :=
  ((cs.dropWhile isJsWs).reverse.dropWhile isJsWs).reverse

/-! ## JSON-like runtime values

JS runtime values flowing through the validator, the router and the stores.
`undefined` is represented as `Option.none` at the points where it can occur
(absent object fields, absent function arguments); the values themselves are
JSON-complete. -/

inductive JValue where
  | null : JValue
  | bool (b : Bool) : JValue
  | num (n : Int) : JValue
  | str (s : String) : JValue
  | arr (xs : List JValue) : JValue
  | obj (fs : List (String × JValue)) : JValue

/-- JS `===` / `Array.prototype.includes` (SameValueZero) equality: primitives
compare by value; objects and arrays compare by reference, which two
independently materialised values never share, so they compare unequal. -/
def jsStrictEq : JValue → JValue → Bool
  | .null, .null => true
  | .bool a, .bool b => a == b
  | .num a, .num b => a == b
  | .str a, .str b => a == b
  | _, _ => false

/-- First-match lookup in an object's field list (JS objects have unique
keys). -/
def jLookup (fs : List (String × JValue)) (k : String) : Option JValue :=
  (fs.find? (fun p => p.1 == k)).map (·.2)

/-- JS property assignment `o[k] = v` on an object-as-field-list: replace an
existing binding in place, otherwise append. -/
def objSet (fs : List (String × JValue)) (k : String) (v : JValue) :
    List (String × JValue) :=
  if fs.any (fun p => p.1 == k) then
    fs.map (fun p => if p.1 == k then (k, v) else p)
  else fs ++ [(k, v)]

/-- JS member read `data[k]`: `none` is `undefined`; reading a property of
`null` throws a `TypeError` (the error carries its message). Strings and
arrays expose numeric indices and `length`. -/
def getFieldJs (data : JValue) (k : String) : Except String (Option JValue) :=
  match data with
  | .null => .error ("Cannot read properties of null (reading " ++ k ++ ")")
  | .obj fs => .ok (jLookup fs k)
  | .arr xs =>
    if k == "length" then .ok (some (.num xs.length)) else
    match k.toNat? with
    | some i => if h : i < xs.length then .ok (some xs[i]) else .ok none
    | none => .ok none
  | .str s =>
    if k == "length" then .ok (some (.num s.length)) else
    match k.toNat? with
    | some i =>
      if h : i < s.length then .ok (some (.str (String.singleton (s.get ⟨i⟩))))
      else .ok none
    | none => .ok none
  | _ => .ok none

/-! ## `EventParameter` and `EventDataValidator` (src/subscribers) -/

inductive JType where
  | string | number | boolean | object | array
deriving DecidableEq

/-- `EventParameter` from src/subscribers/index.ts. The `pattern` field holds
the semantics of `new RegExp(pattern).test` — the compiled test predicate of
the source's regex string (the regex engine is an external library). -/
structure EventParameter where
  name : String
  type : JType
  required : Bool
  sanitize : Bool
  maxLength : Option Nat := none
  pattern : Option (String → Bool) := none
  allowedValues : Option (List JValue) := none

/-- `EventDataValidator.sanitizeString`: truncate to `maxLength` (a zero
`maxLength` is falsy in JS and skipped), test the pattern on the truncated
value (mismatch throws), then strip script tags, `javascript:` URIs and
inline event-handler attributes, and trim. -/
def sanitizeString (value : String) (param : EventParameter) : Except String String :=
  if !param.sanitize then .ok value
  else
    let s1 : String :=
      match param.maxLength with
      | some m => if m == 0 then value else ⟨value.toList.take m⟩
      | none => value
    let patOk : Bool :=
      match param.pattern with
      | some test => test s1
      | none => true
    if !patOk then
      .error ("Parameter " ++ param.name ++ " does not match required pattern")
    else
      .ok ⟨jsTrim (stripOnAttr (stripJsUri (stripScriptTags s1.toList)))⟩

/-- `EventDataValidator.sanitizeNumber`: an `allowedValues` list (even an
empty one — empty arrays are truthy in JS) restricts the value; `Number(x)`
on a number is the identity. -/
def sanitizeNumber (value : Int) (param : EventParameter) : Except String Int :=
  if !param.sanitize then .ok value
  else
    match param.allowedValues with
    | some avs =>
      if !(avs.any (jsStrictEq (.num value))) then
        .error ("Parameter " ++ param.name ++ " value not in allowed values")
      else .ok value
    | none => .ok value

/-- `EventDataValidator.sanitizeBoolean`: `Boolean(x)` on a boolean is the
identity. -/
def sanitizeBoolean (value : Bool) (_param : EventParameter) : Except String Bool :=
  .ok value

/-- `EventDataValidator.sanitizeObject`: with `sanitize` off the value passes
through unchecked; otherwise non-objects and arrays are rejected, keys longer
than 50 characters are dropped, and string-valued keys are sanitized one
level deep with the same parameter options (`null` reaches `Object.entries`,
which throws). -/
def sanitizeObject (value : JValue) (param : EventParameter) : Except String JValue :=
  if !param.sanitize then .ok value
  else
    match value with
    | .arr _ => .error ("Parameter " ++ param.name ++ " must be an object")
    | .str _ | .num _ | .bool _ =>
      .error ("Parameter " ++ param.name ++ " must be an object")
    | .null => .error "Cannot convert undefined or null to object"
    | .obj fields =>
      (fields.foldlM (fun (acc : List (String × JValue)) (kv : String × JValue) =>
        if kv.1.length ≤ 50 then
          match kv.2 with
          | .str s =>
            (sanitizeString s { param with name := kv.1 }).map
              (fun s2 => objSet acc kv.1 (.str s2))
          | v => .ok (objSet acc kv.1 v)
        else .ok acc) []).map .obj

/-- `EventDataValidator.sanitizeArray`: with `sanitize` off the value passes
through unchecked; otherwise non-arrays are rejected; arrays longer than a
nonzero `maxLength` are truncated and returned without element sanitization
(the source returns early); otherwise string elements are sanitized. -/
def sanitizeArray (value : JValue) (param : EventParameter) : Except String JValue :=
  if !param.sanitize then .ok value
  else
    match value with
    | .arr xs =>
      let truncate : Bool :=
        match param.maxLength with
        | some m => !(m == 0) && decide (xs.length > m)
        | none => false
      if truncate then
        .ok (.arr (xs.take (param.maxLength.getD 0)))
      else
        (xs.enum.mapM (fun (ix : Nat × JValue) =>
          match ix.2 with
          | .str s =>
            (sanitizeString s
              { param with name := param.name ++ "[" ++ Nat.repr ix.1 ++ "]" }).map JValue.str
          | v => (.ok v : Except String JValue))).map .arr
    | _ => .error ("Parameter " ++ param.name ++ " must be an array")

/-- The `switch (param.type)` body of `validateAndSanitizeData`, including the
`typeof` guards for the primitive types. -/
def sanitizeSwitch (v : JValue) (param : EventParameter) : Except String JValue :=
  match param.type with
  | .string =>
    match v with
    | .str s => (sanitizeString s param).map .str
    | _ => .error ("Parameter " ++ param.name ++ " must be a string")
  | .number =>
    match v with
    | .num n => (sanitizeNumber n param).map .num
    | _ => .error ("Parameter " ++ param.name ++ " must be a number")
  | .boolean =>
    match v with
    | .bool b => (sanitizeBoolean b param).map .bool
    | _ => .error ("Parameter " ++ param.name ++ " must be a boolean")
  | .object => sanitizeObject v param
  | .array => sanitizeArray v param

/-- One loop iteration of `validateAndSanitizeData` for one declared
parameter: read `data[param.name]` (this very access throws on `null` data);
a required parameter that is `undefined` or `null` throws unwrapped; an
`undefined`/`null` optional parameter is skipped; switch errors are rethrown
wrapped with the parameter name. -/
def vasdStep (data : JValue) (acc : List (String × JValue)) (param : EventParameter) :
    Except String (List (String × JValue)) :=
  match getFieldJs data param.name with
  | .error e => .error e
  | .ok value? =>
    match value? with
    | none =>
      if param.required then
        .error ("Required parameter " ++ param.name ++ " is missing")
      else .ok acc
    | some .null =>
      if param.required then
        .error ("Required parameter " ++ param.name ++ " is missing")
      else .ok acc
    | some v =>
      match sanitizeSwitch v param with
      | .ok v2 => .ok (objSet acc param.name v2)
      | .error m =>
        .error ("Validation failed for parameter " ++ param.name ++ ": " ++ m)

/-- `EventDataValidator.validateAndSanitizeData`: walk the declared
parameters in order, accumulating into an initially empty output object. -/
def validateAndSanitizeData (data : JValue) (parameters : List EventParameter) :
    Except String (List (String × JValue)) :=
  parameters.foldlM (vasdStep data) []

/-! ## Subscription Registry (`SubscriberService`, src/subscribers/index.ts)

JS `Map`s are modelled as insertion-ordered association lists (`Map.set` on an
existing key updates in place, on a fresh key appends) and JS `Set`s as
duplicate-free insertion-ordered lists. `randomUUID` ids are modelled as a
fresh-id counter (the source relies only on their uniqueness). `Date` fields
are modelled as `Nat` instants. -/

/-- A `Subscriber` record. `includeSender` is carried through `...data`
untyped in the source (the interface omits it) and read by the router. -/
structure Subscriber where
  id : Nat
  eventListener : String
  replicable : Bool
  includeSender : Bool
  description : Option String
  parameters : Option (List EventParameter)
  createdAt : Nat
  updatedAt : Nat

/-- The creation payload `Omit<Subscriber, 'id' | 'createdAt' | 'updatedAt'>`. -/
structure SubscriberCreate where
  eventListener : String
  replicable : Bool
  includeSender : Bool := false
  description : Option String := none
  parameters : Option (List EventParameter) := none

/-- A `Partial<...>` update payload; `none` models an absent property (not
merged by the object spread). -/
structure SubscriberUpdate where
  eventListener : Option String := none
  replicable : Option Bool := none
  includeSender : Option Bool := none
  description : Option (Option String) := none
  parameters : Option (Option (List EventParameter)) := none

/-- `SubscriberManager`: the `id → Subscriber` map and the
`eventListener → Set of ids` index, plus the fresh-id supply and clock of the
model. -/
structure SubscriberManager where
  subscribers : List (Nat × Subscriber)
  eventHandlers : List (String × List Nat)
  nextId : Nat
  time : Nat

/-- `Map.get` (first match; a JS `Map`'s keys are unique). -/
def alGet {κ α : Type} [DecidableEq κ] (l : List (κ × α)) (k : κ) : Option α :=
  (l.find? (fun p => decide (p.1 = k))).map (·.2)

/-- `Map.set`: update in place or append. -/
def alSet {κ α : Type} [DecidableEq κ] (l : List (κ × α)) (k : κ) (v : α) :
    List (κ × α) :=
  if l.any (fun p => decide (p.1 = k)) then
    l.map (fun p => if p.1 = k then (k, v) else p)
  else l ++ [(k, v)]

/-- `Map.delete`. -/
def alDel {κ α : Type} [DecidableEq κ] (l : List (κ × α)) (k : κ) : List (κ × α) :=
  l.filter (fun p => !(decide (p.1 = k)))

/-- `Set.add`. -/
def setAdd (s : List Nat) (x : Nat) : List Nat :=
  if x ∈ s then s else s ++ [x]

/-- `SubscriberService.findSubscriberByEventListener`: first subscriber in
insertion order with the given event name. -/
def findSubscriberByEventListener (m : SubscriberManager) (e : String) :
    Option Subscriber :=
  ((m.subscribers.map (·.2)).find? (fun s => s.eventListener == e))

/-- `registerEventHandler`. -/
def registerEventHandler (m : SubscriberManager) (e : String) (id : Nat) :
    SubscriberManager :=
  match alGet m.eventHandlers e with
  | some s => { m with eventHandlers := alSet m.eventHandlers e (setAdd s id) }
  | none => { m with eventHandlers := alSet m.eventHandlers e [id] }

/-- `unregisterEventHandler`: drop the id; delete the key when its set
empties. -/
def unregisterEventHandler (m : SubscriberManager) (e : String) (id : Nat) :
    SubscriberManager :=
  match alGet m.eventHandlers e with
  | some s =>
    let s2 := s.filter (fun x => !(decide (x = id)))
    if s2.isEmpty then { m with eventHandlers := alDel m.eventHandlers e }
    else { m with eventHandlers := alSet m.eventHandlers e s2 }
  | none => m

/-- The object spread `{...subscriber, ...data, updatedAt}` of
`updateSubscriber`. -/
def mergeSubscriber (sub : Subscriber) (d : SubscriberUpdate) (t : Nat) : Subscriber :=
  { sub with
    eventListener := d.eventListener.getD sub.eventListener
    replicable := d.replicable.getD sub.replicable
    includeSender := d.includeSender.getD sub.includeSender
    description := d.description.getD sub.description
    parameters := d.parameters.getD sub.parameters
    updatedAt := t }

/-- `SubscriberService.updateSubscriber`: merge the partial payload over the
record; when the payload renames to a different, truthy (nonempty) event
name, unregister the old name and register the new one. -/
def updateSubscriber (m : SubscriberManager) (id : Nat) (d : SubscriberUpdate) :
    SubscriberManager × Option Subscriber :=
  match alGet m.subscribers id with
  | none => (m, none)
  | some sub =>
    let updated : Subscriber := mergeSubscriber sub d m.time
    let m2 :=
      match d.eventListener with
      | some e =>
        if e ≠ "" ∧ e ≠ sub.eventListener then
          registerEventHandler (unregisterEventHandler m sub.eventListener id) e id
        else m
      | none => m
    let m3 := { m2 with subscribers := alSet m2.subscribers id updated }
    (m3, some updated)

/-- `SubscriberService.createSubscriber`: upsert by event name — an existing
subscriber with the same event name is updated in place; otherwise a fresh id
is allocated, the record stored and the index entry registered. -/
def createSubscriber (m : SubscriberManager) (d : SubscriberCreate) :
    SubscriberManager × Subscriber :=
  match findSubscriberByEventListener m d.eventListener with
  | some existing =>
    let (m2, upd) := updateSubscriber m existing.id
      { eventListener := some d.eventListener
        replicable := some d.replicable
        includeSender := some d.includeSender
        description := some d.description
        parameters := some d.parameters }
    (m2, upd.getD existing)
  | none =>
    let id := m.nextId
    let sub : Subscriber :=
      { id := id
        eventListener := d.eventListener
        replicable := d.replicable
        includeSender := d.includeSender
        description := d.description
        parameters := d.parameters
        createdAt := m.time
        updatedAt := m.time }
    let m2 := { m with subscribers := alSet m.subscribers id sub, nextId := id + 1 }
    (registerEventHandler m2 d.eventListener id, sub)

/-- `SubscriberService.deleteSubscriber`. -/
def deleteSubscriber (m : SubscriberManager) (id : Nat) : SubscriberManager × Bool :=
  match alGet m.subscribers id with
  | none => (m, false)
  | some sub =>
    let m2 := unregisterEventHandler m sub.eventListener id
    ({ m2 with subscribers := m2.subscribers.filter (fun p => !(decide (p.1 = id))) }, true)

/-- `SubscriberService.getSubscribersByEvent`: ids from the index, looked up
in the map, dropping dangling ids. -/
def getSubscribersByEvent (m : SubscriberManager) (e : String) : List Subscriber :=
  match alGet m.eventHandlers e with
  | none => []
  | some ids => ids.filterMap (alGet m.subscribers)

/-- `SubscriberService.deleteAllSubscribers`. -/
def deleteAllSubscribers (m : SubscriberManager) : SubscriberManager × Nat :=
  ({ m with subscribers := [], eventHandlers := [] }, m.subscribers.length)

/-- A registry operation, for reasoning about operation sequences. -/
inductive RegOp where
  | create (d : SubscriberCreate)
  | update (id : Nat) (d : SubscriberUpdate)
  | del (id : Nat)
  | deleteAll

/-- Run one operation (the clock advances by one per operation). -/
def runRegOp (m : SubscriberManager) (op : RegOp) : SubscriberManager :=
  let m2 :=
    match op with
    | .create d => (createSubscriber m d).1
    | .update id d => (updateSubscriber m id d).1
    | .del id => (deleteSubscriber m id).1
    | .deleteAll => (deleteAllSubscribers m).1
  { m2 with time := m2.time + 1 }

def runRegOps (m : SubscriberManager) (ops : List RegOp) : SubscriberManager :=
  ops.foldl runRegOp m

/-- The service's initial state. -/
def emptyManager : SubscriberManager :=
  { subscribers := [], eventHandlers := [], nextId := 0, time := 0 }

/-- `true` when no operation in the sequence is an update that carries an
`eventListener` (i.e. no renaming update). -/
def noRenameOps (ops : List RegOp) : Bool :=
  ops.all (fun op =>
    match op with
    | .update _ d => d.eventListener.isNone
    | _ => true)

/-! ## Room Store (`RoomStorage`, the room storage module)

The Redis hashes `room:{roomId}` and `room:{roomId}:members` are modelled as
functional maps. The per-field marshaling of `createRoom`/`getRoom`
(stringified booleans, JSON members, `maxMembers` via `toString`/`parseInt`)
is lossless for the fields these claims touch, so rooms are stored
structurally. `Date` instants are `Nat`. The optional live `Socket` argument
only joins the transport broadcast group and is not part of the stored
state. -/

structure Room where
  id : String
  name : String
  description : Option String
  allowSelfJoin : Bool
  maxMembers : Option Nat
  isPrivate : Bool
  members : List String
  createdAt : Nat
  updatedAt : Nat
deriving DecidableEq

structure RoomMember where
  userUuid : String
  joinedAt : Nat
  role : String
deriving DecidableEq

structure RoomsState where
  rooms : String → Option Room
  details : String → List (String × RoomMember)

/-- `{ success, message }` of `addMemberToRoom`. -/
structure AddResult where
  success : Bool
  message : String
deriving DecidableEq

/-- `{ success, reason? }` of `removeMemberFromRoom`. -/
structure RemoveResult where
  success : Bool
  reason : Option String
deriving DecidableEq

/-- `{ canJoin, reason? }` of `canUserJoinRoom`. -/
structure CanJoinResult where
  canJoin : Bool
  reason : Option String
deriving DecidableEq

/-- The capacity test `room.maxMembers && room.members.length >= room.maxMembers`
(a `maxMembers` of `0` is falsy in JS, so it imposes no cap). -/
def roomAtCapacity (room : Room) : Bool :=
  match room.maxMembers with
  | some m => !(m == 0) && decide (room.members.length ≥ m)
  | none => false

/-- `RoomStorage.createRoom`: write the room hash under its id. -/
def createRoom (st : RoomsState) (room : Room) : RoomsState :=
  { st with rooms := fun r => if r = room.id then some room else st.rooms r }

/-- `RoomStorage.getRoom`. -/
def getRoom (st : RoomsState) (roomId : String) : Option Room :=
  st.rooms roomId

/-- The `Partial<Room>` payload of `updateRoom` (only fields the update
persists; `id` and `createdAt` are never rewritten by its `hset`). -/
structure RoomUpdates where
  name : Option String := none
  description : Option (Option String) := none
  allowSelfJoin : Option Bool := none
  maxMembers : Option (Option Nat) := none
  isPrivate : Option Bool := none
  members : Option (List String) := none

/-- `RoomStorage.updateRoom`: re-read the room, merge the partial update,
stamp `updatedAt`, persist; `false` when the room does not exist. -/
def updateRoom (st : RoomsState) (roomId : String) (u : RoomUpdates) (now : Nat) :
    RoomsState × Bool :=
  match st.rooms roomId with
  | none => (st, false)
  | some room =>
    let merged : Room :=
      { room with
        name := u.name.getD room.name
        description := u.description.getD room.description
        allowSelfJoin := u.allowSelfJoin.getD room.allowSelfJoin
        maxMembers := u.maxMembers.getD room.maxMembers
        isPrivate := u.isPrivate.getD room.isPrivate
        members := u.members.getD room.members
        updatedAt := now }
    ({ st with rooms := fun r => if r = roomId then some merged else st.rooms r }, true)

/-- `hset` on the room's member-detail hash. -/
def detailSet (l : List (String × RoomMember)) (k : String) (v : RoomMember) :
    List (String × RoomMember) :=
  if l.any (fun p => p.1 == k) then
    l.map (fun p => if p.1 == k then (k, v) else p)
  else l ++ [(k, v)]

/-- `RoomStorage.addMemberToRoom`: missing room fails; a room at capacity
fails (this check runs before the membership check); an existing member
succeeds with no change; otherwise the member is appended via `updateRoom`
and a `{userUuid, joinedAt, role}` entry is recorded in the member-detail
hash. -/
def addMemberToRoom (st : RoomsState) (roomId u : String) (now : Nat) :
    RoomsState × AddResult :=
  match st.rooms roomId with
  | none => (st, ⟨false, "Room not found"⟩)
  | some room =>
    if roomAtCapacity room then (st, ⟨false, "Room is full"⟩)
    else if room.members.contains u then (st, ⟨true, "User is already a member"⟩)
    else
      let res := updateRoom st roomId { members := some (room.members ++ [u]) } now
      if res.2 then
        let member : RoomMember := { userUuid := u, joinedAt := now, role := "member" }
        let st3 :=
          { res.1 with
            details := fun r =>
              if r = roomId then detailSet (res.1.details roomId) u member
              else res.1.details r }
        (st3, ⟨true, "Member added successfully"⟩)
      else (res.1, ⟨false, "Failed to add member"⟩)

/-- `RoomStorage.removeMemberFromRoom`: missing room fails; an absent member
succeeds with no change; a present member without `forceRemove` in a room
with `allowSelfJoin=false` fails; otherwise the member is filtered out via
`updateRoom` and the member-detail entry deleted. -/
def removeMemberFromRoom (st : RoomsState) (roomId u : String) (forceRemove : Bool)
    (now : Nat) : RoomsState × RemoveResult :=
  match st.rooms roomId with
  | none => (st, ⟨false, some "Room not found"⟩)
  | some room =>
    if !room.members.contains u then (st, ⟨true, none⟩)
    else if !forceRemove && !room.allowSelfJoin then
      (st, ⟨false, some "Room does not allow self-removal"⟩)
    else
      let res := updateRoom st roomId
        { members := some (room.members.filter (fun x => !(x == u))) } now
      if res.2 then
        let st3 :=
          { res.1 with
            details := fun r =>
              if r = roomId then (res.1.details roomId).filter (fun p => !(p.1 == u))
              else res.1.details r }
        (st3, ⟨true, none⟩)
      else (res.1, ⟨false, none⟩)

/-- `RoomStorage.canUserJoinRoom`: existence, then membership, then capacity,
then the `allowSelfJoin` policy. -/
def canUserJoinRoom (st : RoomsState) (roomId u : String) : CanJoinResult :=
  match st.rooms roomId with
  | none => ⟨false, some ("Room " ++ roomId ++ " not found")⟩
  | some room =>
    if room.members.contains u then ⟨true, none⟩
    else if roomAtCapacity room then ⟨false, some "Room is full"⟩
    else if !room.allowSelfJoin then ⟨false, some "Room requires admin approval"⟩
    else ⟨true, none⟩

/-- The empty room store. -/
def emptyRooms : RoomsState :=
  { rooms := fun _ => none, details := fun _ => [] }

/-! ## Concurrent `addMemberToRoom` (interleaving model)

Each `addMemberToRoom` call suspends at every awaited store command. On the
room key it performs three round trips: the initial `getRoom` read, the
re-read inside `updateRoom`, and the `hset` write (the member-detail writes
touch a different key and are omitted here). Between round trips, steps of
other calls on the same room may interleave; a round trip itself is atomic.
All calls below target one fixed room, per the claim. -/

inductive AddPhase where
  /-- before the initial `getRoom` read -/
  | start
  /-- passed the checks; holds the member list it will write
  (`room.members ++ [u]` from its own read snapshot); before `updateRoom`'s
  re-read -/
  | mid (pending : List String)
  /-- holds the merged room computed from the re-read; before the `hset` -/
  | write (newRoom : Room)
  /-- returned -/
  | done (success : Bool) (message : String)
deriving DecidableEq

structure AddProc where
  uuid : String
  phase : AddPhase
  /-- store round trips performed on the room key so far -/
  ops : Nat
deriving DecidableEq

/-- One store round trip of one call, against the current room value. -/
def stepProc (room? : Option Room) (p : AddProc) (now : Nat) :
    Option Room × AddProc :=
  match p.phase with
  | .start =>
    match room? with
    | none => (room?, { p with phase := .done false "Room not found", ops := p.ops + 1 })
    | some room =>
      if roomAtCapacity room then
        (room?, { p with phase := .done false "Room is full", ops := p.ops + 1 })
      else if room.members.contains p.uuid then
        (room?, { p with phase := .done true "User is already a member", ops := p.ops + 1 })
      else
        (room?, { p with phase := .mid (room.members ++ [p.uuid]), ops := p.ops + 1 })
  | .mid pending =>
    match room? with
    | none => (room?, { p with phase := .done false "Failed to add member", ops := p.ops + 1 })
    | some room2 =>
      (room?,
        { p with
          phase := .write { room2 with members := pending, updatedAt := now }
          ops := p.ops + 1 })
  | .write r =>
    (some r, { p with phase := .done true "Member added successfully", ops := p.ops + 1 })
  | .done _ _ => (room?, p)

structure CState where
  room : Option Room
  procs : List AddProc
  clock : Nat
deriving DecidableEq

/-- Let call `i` take its next store round trip (out-of-range indices and
finished calls are no-ops). -/
def stepSys (s : CState) (i : Nat) : CState :=
  match s.procs[i]? with
  | none => s
  | some p =>
    let r := stepProc s.room p s.clock
    { room := r.1, procs := s.procs.set i r.2, clock := s.clock + 1 }

/-- Run a whole schedule (an arbitrary interleaving of the calls). -/
def runSched (s : CState) (sched : List Nat) : CState :=
  sched.foldl stepSys s

/-- One fresh `addMemberToRoom` call per uuid. -/
def initProcs (uuids : List String) : List AddProc :=
  uuids.map (fun u => { uuid := u, phase := .start, ops := 0 })

/-- What the interleaving invariant requires of an in-flight call. -/
def phaseOk (m : Nat) : AddPhase → Prop
  | .mid pending => pending.length ≤ m
  | .write r => r.members.length ≤ m ∧ r.maxMembers = some m
  | _ => True

/-- The interleaving invariant: the stored room keeps its cap and respects
it, and every pending write respects it. -/
def cinv (m : Nat) (s : CState) : Prop :=
  (∀ r, s.room = some r → r.members.length ≤ m ∧ r.maxMembers = some m) ∧
  ∀ p ∈ s.procs, phaseOk m p.phase

/-! ## Event Router (`handleDynamicEvents`, src/socket/events.ts)

The `socket.onAny` handler, as a pure function from the registry state, the
inbound event and the socket context to the emits it performs and the
callback replies it sends. The transport (`socket.emit`, `socket.to(...)`,
`socket.broadcast`) is captured as an `Emit` trace; the callback channel as a
`Reply` list, in invocation order. The subscriber map functions run
synchronously (no `await` inside), so the subscribers are processed
sequentially to completion; a rejection surfaces at the awaited
`Promise.all`, after which the outer catch replies generically. -/

/-- JS truthiness of a value (`NaN` cannot arise in the `Int` model). -/
def truthy : JValue → Bool
  | .null => false
  | .bool b => b
  | .num n => !(n == 0)
  | .str s => !(s == "")
  | .arr _ => true
  | .obj _ => true

/-- JS object spread `{...x}`: objects contribute their fields, strings and
arrays their indexed elements, primitives nothing. -/
def spreadFields : JValue → List (String × JValue)
  | .obj fs => fs
  | .str s => s.toList.enum.map (fun ic => (Nat.repr ic.1, JValue.str (String.singleton ic.2)))
  | .arr xs => xs.enum.map (fun ix => (Nat.repr ix.1, ix.2))
  | _ => []

/-- The outbound payload
`{...sanitizedData, userUuid, timestamp, subscriberId}`. -/
def mkEventData (sanitized : JValue) (senderUuid : JValue) (now : Nat) (subId : Nat) :
    JValue :=
  .obj (objSet (objSet (objSet (spreadFields sanitized)
    "userUuid" senderUuid) "timestamp" (.str (Nat.repr now))) "subscriberId" (.num subId))

/-- A transport emission performed by the handler. -/
inductive Emit where
  /-- `socket.emit(event, payload)` — echo to the sender -/
  | toSender (event : String) (payload : JValue)
  /-- `socket.to(room).emit(event, payload)` -/
  | toRoom (room : JValue) (event : String) (payload : JValue)
  /-- `socket.broadcast.emit(event, payload)` -/
  | broadcast (event : String) (payload : JValue)

/-- A callback invocation performed by the handler. -/
inductive Reply where
  /-- `{success:false, error:'No subscribers found for event: ...'}` -/
  | noSubscriber (eventName : String)
  /-- `{success:false, error:'Validation failed: ...', subscriberId}` -/
  | validationFailed (msg : String) (subscriberId : Nat)
  /-- `{success:true, data:{event, originalData, subscribers}}` -/
  | success (eventName : String) (originalData : JValue)
  /-- `{success:false, error:'Event processing failed'}` -/
  | processingFailed

/-- What processing one subscriber does: its emissions, the error reply it
sent from inside the loop (validation failure with a callback present), and
whether it threw (rejecting the `Promise.all`). -/
structure SubOutcome where
  emits : List Emit
  errorReply : Option Reply
  threw : Bool

/-- The guard `if (subscriber.parameters && subscriber.parameters.length > 0)`
around `validateAndSanitizeData`. -/
def validateForSub (sub : Subscriber) (data : JValue) : Except String JValue :=
  match sub.parameters with
  | some params =>
    if 0 < params.length then
      (validateAndSanitizeData data params).map (fun out => .obj out)
    else .ok data
  | none => .ok data

/-- The emission stage of one subscriber: echo to the sender when
`includeSender`, then either a room emit (payload carries a truthy `roomId`)
or a broadcast; reading `roomId` off a non-object payload throws. -/
def emitOutcome (sub : Subscriber) (eventName : String)
    (data sanitizedData senderUuid : JValue) (now : Nat) : SubOutcome :=
  let eventData := mkEventData sanitizedData senderUuid now sub.id
  match getFieldJs data "roomId" with
  | .error _ => ⟨[], none, true⟩
  | .ok roomId? =>
    let isRoom : Bool := match roomId? with | some v => truthy v | none => false
    if isRoom then
      ⟨(if sub.includeSender then [.toSender eventName eventData] else []) ++
        [.toRoom (roomId?.getD .null) eventName eventData], none, false⟩
    else
      ⟨(if sub.includeSender then [.toSender eventName eventData] else []) ++
        [.broadcast eventName eventData], none, false⟩

/-- Processing of one resolved subscriber inside the `Promise.all` map. -/
def processSubscriber (sub : Subscriber) (eventName : String) (data : JValue)
    (senderUuid : JValue) (now : Nat) (hasCallback : Bool) : SubOutcome :=
  if !sub.replicable then ⟨[], none, false⟩
  else
    match validateForSub sub data with
    | .error m =>
      ⟨[], if hasCallback then some (.validationFailed ("Validation failed: " ++ m) sub.id)
           else none, false⟩
    | .ok sanitizedData => emitOutcome sub eventName data sanitizedData senderUuid now

/-- The handler's reserved event names. -/
def builtInEvents : List String :=
  ["joinRoom", "leaveRoom", "disconnect", "disconnecting", "connect", "connect_error"]

structure RouterResult where
  emits : List Emit
  replies : List Reply

/-- `handleDynamicEvents`: defer on reserved names and dedicated listeners;
reply "no subscriber" when the registry resolves nothing; otherwise process
every resolved subscriber, then send the final reply — the generic failure
if any subscriber threw, the success reply otherwise. -/
def handleDynamicEvents (m : SubscriberManager) (eventName : String)
    (hasSpecificListener : Bool) (data : JValue) (senderUuid : JValue)
    (hasCallback : Bool) (now : Nat) : RouterResult :=
  if builtInEvents.contains eventName then ⟨[], []⟩
  else if hasSpecificListener then ⟨[], []⟩
  else
    let subs := getSubscribersByEvent m eventName
    if subs.isEmpty then
      ⟨[], if hasCallback then [.noSubscriber eventName] else []⟩
    else
      let outcomes := subs.map
        (fun sub => processSubscriber sub eventName data senderUuid now hasCallback)
      let anyThrew := outcomes.any SubOutcome.threw
      ⟨(outcomes.map SubOutcome.emits).flatten,
        outcomes.filterMap SubOutcome.errorReply ++
          (if hasCallback then
            [if anyThrew then Reply.processingFailed else Reply.success eventName data]
           else [])⟩

/-! ## JSON serialization

Model of the external `JSON.stringify` / `JSON.parse` pair used by the
presence store to marshal `identifiers` and `rooms` into Redis hash fields.
`stringify` emits the canonical compact form (strings escaped as V8 does);
the parser covers the grammar `stringify` emits (with `num := Int`, numbers
are the integral subset), which is what the round-trip claims exercise. -/

/-- Lowercase hex digit (for `\u00XX` escapes). -/
def hexDigitChar (n : Nat) : Char :=
  if n < 10 then Char.ofNat (n + '0'.toNat) else Char.ofNat (n - 10 + 'a'.toNat)

/-- `JSON.stringify`'s escape of one string character. -/
def escChar (c : Char) : List Char :=
  if c = '"' then ['\\', '"']
  else if c = '\\' then ['\\', '\\']
  else if c = '\x08' then ['\\', 'b']
  else if c = '\x0c' then ['\\', 'f']
  else if c = '\n' then ['\\', 'n']
  else if c = '\r' then ['\\', 'r']
  else if c = '\t' then ['\\', 't']
  else if c.toNat < 32 then
    '\\' :: 'u' :: '0' :: '0' ::
      [hexDigitChar (Char.toNat c / 16), hexDigitChar (Char.toNat c % 16)]
  else [c]

def escapeChars : List Char → List Char
  | [] => []
  | c :: rest => escChar c ++ escapeChars rest

/-- Decimal digits of a natural number. -/
def natChars (n : Nat) : List Char :=
  if n < 10 then [Nat.digitChar n]
  else natChars (n / 10) ++ [Nat.digitChar (n % 10)]
  termination_by n
  decreasing_by exact Nat.div_lt_self (by omega) (by omega)

/-- Decimal representation of an integer. -/
def intChars (n : Int) : List Char :=
  if n < 0 then '-' :: natChars (-n).toNat else natChars n.toNat

mutual

def stringifyChars : JValue → List Char
  | .null => 'n' :: ['u', 'l', 'l']
  | .bool true => 't' :: ['r', 'u', 'e']
  | .bool false => 'f' :: ['a', 'l', 's', 'e']
  | .num n => intChars n
  | .str s => '"' :: (escapeChars s.toList ++ ['"'])
  | .arr xs => '[' :: (stringifyElems xs ++ [']'])
  | .obj fs => '\x7b' :: (stringifyMembers fs ++ ['\x7d'])

def stringifyElems : List JValue → List Char
  | [] => []
  | [x] => stringifyChars x
  | x :: y :: xs => stringifyChars x ++ ',' :: stringifyElems (y :: xs)

def stringifyMembers : List (String × JValue) → List Char
  | [] => []
  | [kv] => '"' :: (escapeChars kv.1.toList ++ '"' :: ':' :: stringifyChars kv.2)
  | kv :: kv2 :: fs =>
    ('"' :: (escapeChars kv.1.toList ++ '"' :: ':' :: stringifyChars kv.2)) ++
      ',' :: stringifyMembers (kv2 :: fs)

end

def parseHexDigit (c : Char) : Option Nat :=
  if '0' ≤ c ∧ c ≤ '9' then some (Char.toNat c - '0'.toNat)
  else if 'a' ≤ c ∧ c ≤ 'f' then some (Char.toNat c - 'a'.toNat + 10)
  else if 'A' ≤ c ∧ c ≤ 'F' then some (Char.toNat c - 'A'.toNat + 10)
  else none

/-- Parse a JSON string body up to and including the closing quote. -/
def parseStringBody : List Char → Option (List Char × List Char)
  | [] => none
  | c :: rest =>
    if c = '"' then some ([], rest)
    else if c = '\\' then
      match rest with
      | [] => none
      | e :: r2 =>
        if e = '"' then (parseStringBody r2).map (fun p => ('"' :: p.1, p.2))
        else if e = '\\' then (parseStringBody r2).map (fun p => ('\\' :: p.1, p.2))
        else if e = '/' then (parseStringBody r2).map (fun p => ('/' :: p.1, p.2))
        else if e = 'b' then (parseStringBody r2).map (fun p => ('\x08' :: p.1, p.2))
        else if e = 'f' then (parseStringBody r2).map (fun p => ('\x0c' :: p.1, p.2))
        else if e = 'n' then (parseStringBody r2).map (fun p => ('\n' :: p.1, p.2))
        else if e = 'r' then (parseStringBody r2).map (fun p => ('\r' :: p.1, p.2))
        else if e = 't' then (parseStringBody r2).map (fun p => ('\t' :: p.1, p.2))
        else if e = 'u' then
          match r2 with
          | a :: b :: c2 :: d :: r3 =>
            match parseHexDigit a, parseHexDigit b, parseHexDigit c2, parseHexDigit d with
            | some ha, some hb, some hc, some hd =>
              (parseStringBody r3).map
                (fun p => (Char.ofNat (((ha * 16 + hb) * 16 + hc) * 16 + hd) :: p.1, p.2))
            | _, _, _, _ => none
          | _ => none
        else none
    else if c.toNat < 32 then none
    else (parseStringBody rest).map (fun p => (c :: p.1, p.2))
  termination_by cs => cs.length
  decreasing_by all_goals (simp; try omega)

/-- Consume a maximal digit run, accumulating its value. -/
def digitsVal (acc : Nat) : List Char → Nat × List Char
  | [] => (acc, [])
  | c :: rest =>
    if c.isDigit then digitsVal (acc * 10 + (c.toNat - '0'.toNat)) rest
    else (acc, c :: rest)

/-- At least one digit required. -/
def parseNat (cs : List Char) : Option (Nat × List Char) :=
  match cs with
  | [] => none
  | c :: _ => if c.isDigit then some (digitsVal 0 cs) else none

def parseNumber (cs : List Char) : Option (Int × List Char) :=
  match cs with
  | [] => none
  | c :: rest =>
    if c = '-' then (parseNat rest).map (fun p => ((-(p.1 : Int) : Int), p.2))
    else (parseNat (c :: rest)).map (fun p => (((p.1 : Int) : Int), p.2))

/-- Consume an expected literal tail. -/
def dropLit : List Char → List Char → Option (List Char)
  | [], cs => some cs
  | l :: ls, c :: cs => if c = l then dropLit ls cs else none
  | _ :: _, [] => none

mutual

def parseVal : Nat → List Char → Option (JValue × List Char)
  | 0, _ => none
  | fuel + 1, cs =>
    match cs with
    | [] => none
    | c :: rest =>
      if c = 'n' then (dropLit ['u', 'l', 'l'] rest).map (fun r => (.null, r))
      else if c = 't' then (dropLit ['r', 'u', 'e'] rest).map (fun r => (.bool true, r))
      else if c = 'f' then (dropLit ['a', 'l', 's', 'e'] rest).map (fun r => (.bool false, r))
      else if c = '"' then (parseStringBody rest).map (fun p => (.str ⟨p.1⟩, p.2))
      else if c = '[' then
        if rest.head? = some ']' then some (.arr [], rest.tail)
        else (parseElems fuel rest).map (fun p => (.arr p.1, p.2))
      else if c = '\x7b' then
        if rest.head? = some '\x7d' then some (.obj [], rest.tail)
        else (parseMembers fuel rest).map (fun p => (.obj p.1, p.2))
      else (parseNumber (c :: rest)).map (fun p => (.num p.1, p.2))

def parseElems : Nat → List Char → Option (List JValue × List Char)
  | 0, _ => none
  | fuel + 1, cs =>
    match parseVal fuel cs with
    | none => none
    | some (v, rest) =>
      match rest with
      | ',' :: r2 => (parseElems fuel r2).map (fun p => (v :: p.1, p.2))
      | ']' :: r2 => some ([v], r2)
      | _ => none

def parseMembers : Nat → List Char → Option (List (String × JValue) × List Char)
  | 0, _ => none
  | fuel + 1, cs =>
    match cs with
    | '"' :: rest =>
      (match parseStringBody rest with
       | some (k, r2) =>
         (match r2 with
          | ':' :: r3 =>
            (match parseVal fuel r3 with
             | some (v, r4) =>
               (match r4 with
                | ',' :: r5 => (parseMembers fuel r5).map (fun p => ((⟨k⟩, v) :: p.1, p.2))
                | '\x7d' :: r5 => some ([((⟨k⟩ : String), v)], r5)
                | _ => none)
             | none => none)
          | _ => none)
       | none => none)
    | _ => none

end

def jsonStringify (v : JValue) : String := ⟨stringifyChars v⟩

def jsonParse (s : String) : Option JValue :=
  match parseVal (s.toList.length + 1) s.toList with
  | some (v, []) => some v
  | _ => none

/-! ## Presence Directory (`RedisStorage`, src/storage/redis.ts)

The redis path of `saveUserData`/`addUser`/`getUserByJWT`. Hash fields are
stored as the strings the source writes (stringified booleans and JSON
payloads). The source keys by `user:{sha256hex(token)}`; the digest is
injective on a run's tokens and cancels out on a same-token round trip, so
the model keys by the raw token under the same prefix. TTLs, the local-cache
mirror, and the observability events are not modelled. -/

/-- The fields `saveUserData` writes with `hset`. -/
structure UserHash where
  socketId : String
  authenticated : String
  identifiers : String
  connectedAt : String
  lastSeen : String
  rooms : String

structure PresenceState where
  /-- hashes under `user:{token key}` -/
  users : String → Option UserHash
  /-- `socket-to-jwt:{socketId}` string keys -/
  socketToJwt : String → Option String

def getJWTKey (token : String) : String := "user:" ++ token

def tempSocketId : String := "temp-socket-id"

/-- The `StoredUser` value `addUser` assembles before serialization. -/
structure StoredUserIn where
  socketId : String
  authenticated : Bool
  identifiers : JValue
  connectedAt : Nat
  lastSeen : Nat
  rooms : List String

def boolString (b : Bool) : String := if b then "true" else "false"

/-- `saveUserData` (redis path): write the hash fields in one pipeline and,
for a non-temporary socket, index the socket id. -/
def saveUserData (st : PresenceState) (token : String) (u : StoredUserIn) :
    PresenceState :=
  let h : UserHash :=
    { socketId := u.socketId
      authenticated := boolString u.authenticated
      identifiers := jsonStringify u.identifiers
      connectedAt := Nat.repr u.connectedAt
      lastSeen := Nat.repr u.lastSeen
      rooms := jsonStringify (.arr (u.rooms.map .str)) }
  let st2 : PresenceState :=
    { st with users := fun k => if k = getJWTKey token then some h else st.users k }
  if u.socketId ≠ tempSocketId then
    { st2 with
      socketToJwt := fun k =>
        if k = "socket-to-jwt:" ++ u.socketId then some token else st2.socketToJwt k }
  else st2

/-- `RedisStorage.addUser`: build the record with fresh timestamps and save
it. -/
def addUser (st : PresenceState) (token socketId : String) (authenticated : Bool)
    (identifiers : JValue) (rooms : List String) (now : Nat) : PresenceState :=
  saveUserData st token
    { socketId := socketId, authenticated := authenticated, identifiers := identifiers
      connectedAt := now, lastSeen := now, rooms := rooms }

/-- What `getUserByJWT` returns: the parsed `StoredUser` (the unchecked
casts on `identifiers`/`rooms` mean their parsed shapes are arbitrary JSON
values). -/
structure StoredUserOut where
  socketId : String
  authenticated : Bool
  identifiers : JValue
  connectedAt : String
  lastSeen : String
  rooms : JValue

/-- `RedisStorage.getUserByJWT` (redis path): read the hash; absent key means
`undefined`; JSON fields that fail to parse degrade to `{}` / `[]`. -/
def getUserByJWT (st : PresenceState) (token : String) : Option StoredUserOut :=
  match st.users (getJWTKey token) with
  | none => none
  | some data =>
    some
      { socketId := data.socketId
        authenticated := data.authenticated == "true"
        identifiers := (jsonParse data.identifiers).getD (.obj [])
        connectedAt := data.connectedAt
        lastSeen := data.lastSeen
        rooms := (jsonParse data.rooms).getD (.arr []) }

/-! ## JSON round-trip: number lemmas -/

/-- `cs` does not start with a digit. -/
def headNotDigit (cs : List Char) : Prop :=
  ∀ c, cs.head? = some c → c.isDigit = false

theorem headNotDigit_nil : headNotDigit [] := by
  intro c h; simp at h

theorem headNotDigit_cons {c : Char} (h : c.isDigit = false) (cs : List Char) :
    headNotDigit (c :: cs) := by
  intro d hd; simp at hd; simpa [hd] using h

theorem natChars_ne_nil (n : Nat) : natChars n ≠ [] := by
  rw [natChars]
  split <;> simp

theorem natChars_digits (n : Nat) : ∀ c ∈ natChars n, c.isDigit = true := by
  induction n using Nat.strong_induction_on with
  | _ n ih =>
    rw [natChars]
    split
    · rename_i h
      intro c hc
      simp at hc
      subst hc
      interval_cases n <;> decide
    · rename_i h
      intro c hc
      simp at hc
      rcases hc with hc | hc
      · exact ih (n / 10) (Nat.div_lt_self (by omega) (by omega)) c hc
      · subst hc
        have : n % 10 < 10 := Nat.mod_lt _ (by omega)
        interval_cases h2 : n % 10 <;> simp_all <;> decide

theorem digitsVal_stop {cs : List Char} (h : headNotDigit cs) (acc : Nat) :
    digitsVal acc cs = (acc, cs) := by
  cases cs with
  | nil => rfl
  | cons c rest =>
    have := h c (by simp)
    simp [digitsVal, this]

theorem digitsVal_natChars (n : Nat) : ∀ acc rest,
    digitsVal acc (natChars n ++ rest) =
      digitsVal (acc * 10 ^ (natChars n).length + n) rest := by
  induction n using Nat.strong_induction_on with
  | _ n ih =>
    intro acc rest
    rw [natChars]
    split
    · rename_i h
      have hd : (Nat.digitChar n).isDigit = true := by interval_cases n <;> decide
      have hv : (Nat.digitChar n).toNat - 48 = n := by interval_cases n <;> decide
      simp [digitsVal, hd, hv]
    · rename_i h
      have hlt : n / 10 < n := Nat.div_lt_self (by omega) (by omega)
      have hd : (Nat.digitChar (n % 10)).isDigit = true := by
        have : n % 10 < 10 := Nat.mod_lt _ (by omega)
        interval_cases h2 : n % 10 <;> decide
      have hv : (Nat.digitChar (n % 10)).toNat - 48 = n % 10 := by
        have : n % 10 < 10 := Nat.mod_lt _ (by omega)
        interval_cases h2 : n % 10 <;> decide
      rw [List.append_assoc, List.singleton_append, ih (n / 10) hlt acc]
      simp only [digitsVal, hd, if_pos, List.length_append, List.length_singleton]
      rw [show Char.toNat '0' = 48 from rfl, hv]
      congr 1
      rw [pow_succ, ← Nat.mul_assoc]
      omega

theorem parseNat_natChars (n : Nat) {rest : List Char} (h : headNotDigit rest) :
    parseNat (natChars n ++ rest) = some (n, rest) := by
  obtain ⟨c, t, hct⟩ : ∃ c t, natChars n = c :: t := by
    cases hnc : natChars n with
    | nil => exact absurd hnc (natChars_ne_nil n)
    | cons c t => exact ⟨c, t, rfl⟩
  have hcd : c.isDigit = true := natChars_digits n c (by rw [hct]; simp)
  rw [hct]
  simp only [List.cons_append, parseNat, hcd, if_pos]
  rw [← List.cons_append, ← hct, digitsVal_natChars, digitsVal_stop h]
  simp

theorem digit_ne {c d : Char} (hc : c.isDigit = true) (hd : d.isDigit = false) :
    c ≠ d := by
  intro h; subst h; rw [hc] at hd; exact absurd hd (by simp)

theorem parseNumber_intChars (n : Int) {rest : List Char} (h : headNotDigit rest) :
    parseNumber (intChars n ++ rest) = some (n, rest) := by
  rw [intChars]
  split
  · rename_i hneg
    simp only [List.cons_append, parseNumber, if_pos]
    rw [parseNat_natChars _ h]
    simp
    omega
  · rename_i hpos
    obtain ⟨c, t, hct⟩ : ∃ c t, natChars n.toNat = c :: t := by
      cases hnc : natChars n.toNat with
      | nil => exact absurd hnc (natChars_ne_nil _)
      | cons c t => exact ⟨c, t, rfl⟩
    have hcd : c.isDigit = true := natChars_digits _ c (by rw [hct]; simp)
    rw [hct]
    simp only [List.cons_append, parseNumber]
    rw [if_neg (by exact_mod_cast digit_ne hcd (by decide))]
    rw [← List.cons_append, ← hct, parseNat_natChars _ h]
    simp
    omega

/-! ## JSON round-trip: string lemmas -/

theorem parseHexDigit_hexDigitChar : ∀ k, k < 16 → parseHexDigit (hexDigitChar k) = some k := by
  decide

theorem parseStringBody_escape (s : List Char) (rest : List Char) :
    parseStringBody (escapeChars s ++ '"' :: rest) = some (s, rest) := by
  induction s with
  | nil => rw [escapeChars, List.nil_append, parseStringBody.eq_def]; simp
  | cons c cs ih =>
    rw [escapeChars, List.append_assoc, escChar]
    split_ifs with h1 h2 h3 h4 h5 h6 h7 h8
    · subst h1; rw [parseStringBody.eq_def]; simp [ih]
    · subst h2; rw [parseStringBody.eq_def]; simp [ih]
    · subst h3; rw [parseStringBody.eq_def]; simp [ih]
    · subst h4; rw [parseStringBody.eq_def]; simp [ih]
    · subst h5; rw [parseStringBody.eq_def]; simp [ih]
    · subst h6; rw [parseStringBody.eq_def]; simp [ih]
    · subst h7; rw [parseStringBody.eq_def]; simp [ih]
    · have hhi : c.toNat / 16 < 16 := by omega
      have hlo : c.toNat % 16 < 16 := by omega
      rw [parseStringBody.eq_def]
      simp [parseHexDigit_hexDigitChar _ hhi, parseHexDigit_hexDigitChar _ hlo,
        show parseHexDigit '0' = some 0 from by decide, ih]
      have : c.toNat / 16 * 16 + c.toNat % 16 = c.toNat := by omega
      rw [this, Char.ofNat_toNat]
    · rw [parseStringBody.eq_def]; simp [h1, h2, h8, ih]

/-! ## JSON round-trip: values -/

theorem strMk_toList (s : String) : (⟨s.toList⟩ : String) = s := by cases s; rfl

/- Fuel measure: enough `parseVal`/`parseElems`/`parseMembers` steps to
re-parse a serialized value. -/
mutual

def tsize : JValue → Nat
  | .null => 1
  | .num _ => 1
  | .bool _ => 1
  | .str _ => 1
  | .arr xs => 1 + tsizeL xs
  | .obj fs => 1 + tsizeM fs

def tsizeL : List JValue → Nat
  | [] => 0
  | x :: xs => 1 + tsize x + tsizeL xs

def tsizeM : List (String × JValue) → Nat
  | [] => 0
  | kv :: fs => 1 + tsize kv.2 + tsizeM fs

end

theorem stringifyElems_cons (x : JValue) (xs : List JValue) :
    ∃ tail, stringifyElems (x :: xs) = stringifyChars x ++ tail := by
  cases xs with
  | nil => exact ⟨[], by rw [stringifyElems, List.append_nil]⟩
  | cons y ys => exact ⟨',' :: stringifyElems (y :: ys), by rw [stringifyElems]⟩

theorem stringifyMembers_head (kv : String × JValue) (fs : List (String × JValue)) :
    ∃ tail, stringifyMembers (kv :: fs) = '"' :: tail := by
  cases fs with
  | nil => exact ⟨_, by rw [stringifyMembers]⟩
  | cons kv2 gs => exact ⟨_, by rw [stringifyMembers]; rw [List.cons_append]⟩

/-- The first character a serialized value can start with. -/
theorem stringifyChars_head (v : JValue) :
    ∃ c t, stringifyChars v = c :: t ∧
      (c = 'n' ∨ c = 't' ∨ c = 'f' ∨ c = '"' ∨ c = '[' ∨ c = '\x7b' ∨
        c = '-' ∨ c.isDigit = true) := by
  cases v with
  | null => exact ⟨'n', _, by rw [stringifyChars], by simp⟩
  | bool b =>
    cases b with
    | true => exact ⟨'t', _, by rw [stringifyChars], by simp⟩
    | false => exact ⟨'f', _, by rw [stringifyChars], by simp⟩
  | num n =>
    rw [stringifyChars, intChars]
    split
    · exact ⟨'-', _, rfl, by simp⟩
    · obtain ⟨c, t, hct⟩ : ∃ c t, natChars n.toNat = c :: t := by
        cases hnc : natChars n.toNat with
        | nil => exact absurd hnc (natChars_ne_nil _)
        | cons c t => exact ⟨c, t, rfl⟩
      exact ⟨c, t, hct, by simp [natChars_digits _ c (by rw [hct]; simp)]⟩
  | str s => exact ⟨'"', _, by rw [stringifyChars], by simp⟩
  | arr xs => exact ⟨'[', _, by rw [stringifyChars], by simp⟩
  | obj fs => exact ⟨'\x7b', _, by rw [stringifyChars], by simp⟩

mutual

theorem parseVal_stringify : ∀ (v : JValue) (fuel : Nat) (rest : List Char),
    tsize v < fuel → headNotDigit rest →
    parseVal fuel (stringifyChars v ++ rest) = some (v, rest)
  | .null, fuel, rest, hf, _ => by
    obtain ⟨f, rfl⟩ : ∃ f, fuel = f + 1 := ⟨fuel - 1, by omega⟩
    rw [stringifyChars, List.cons_append, parseVal]
    simp [dropLit]
  | .bool true, fuel, rest, hf, _ => by
    obtain ⟨f, rfl⟩ : ∃ f, fuel = f + 1 := ⟨fuel - 1, by omega⟩
    rw [stringifyChars, List.cons_append, parseVal]
    simp [dropLit]
  | .bool false, fuel, rest, hf, _ => by
    obtain ⟨f, rfl⟩ : ∃ f, fuel = f + 1 := ⟨fuel - 1, by omega⟩
    rw [stringifyChars, List.cons_append, parseVal]
    simp [dropLit]
  | .num n, fuel, rest, hf, hr => by
    obtain ⟨f, rfl⟩ : ∃ f, fuel = f + 1 := ⟨fuel - 1, by omega⟩
    rw [stringifyChars]
    obtain ⟨c, t, hct, hstart⟩ : ∃ c t, intChars n = c :: t ∧
        (c = '-' ∨ c.isDigit = true) := by
      rw [intChars]
      split
      · exact ⟨'-', _, rfl, by simp⟩
      · obtain ⟨c, t, hct⟩ : ∃ c t, natChars n.toNat = c :: t := by
          cases hnc : natChars n.toNat with
          | nil => exact absurd hnc (natChars_ne_nil _)
          | cons c t => exact ⟨c, t, rfl⟩
        exact ⟨c, t, hct, by simp [natChars_digits _ c (by rw [hct]; simp)]⟩
    have hne : c ≠ 'n' ∧ c ≠ 't' ∧ c ≠ 'f' ∧ c ≠ '"' ∧ c ≠ '[' ∧ c ≠ '\x7b' := by
      rcases hstart with h | h
      · subst h; refine ⟨by decide, by decide, by decide, by decide, by decide, by decide⟩
      · exact ⟨digit_ne h (by decide), digit_ne h (by decide), digit_ne h (by decide),
          digit_ne h (by decide), digit_ne h (by decide), digit_ne h (by decide)⟩
    rw [hct, List.cons_append, parseVal]
    rw [if_neg hne.1, if_neg hne.2.1, if_neg hne.2.2.1, if_neg hne.2.2.2.1,
      if_neg hne.2.2.2.2.1, if_neg hne.2.2.2.2.2]
    rw [← List.cons_append, ← hct, parseNumber_intChars n hr]
    simp
  | .str s, fuel, rest, hf, _ => by
    obtain ⟨f, rfl⟩ : ∃ f, fuel = f + 1 := ⟨fuel - 1, by omega⟩
    rw [stringifyChars, List.cons_append, List.append_assoc, List.singleton_append,
      parseVal]
    simp only [reduceIte]
    rw [parseStringBody_escape]
    simp [strMk_toList]
  | .arr [], fuel, rest, hf, _ => by
    obtain ⟨f, rfl⟩ : ∃ f, fuel = f + 1 := ⟨fuel - 1, by omega⟩
    rw [stringifyChars, stringifyElems, List.nil_append, List.cons_append,
      List.singleton_append, parseVal]
    simp
  | .arr (x :: xs), fuel, rest, hf, _ => by
    obtain ⟨f, rfl⟩ : ∃ f, fuel = f + 1 := ⟨fuel - 1, by omega⟩
    have hsz : tsizeL (x :: xs) < f := by rw [tsize] at hf; omega
    rw [stringifyChars, List.cons_append, List.append_assoc, List.singleton_append,
      parseVal]
    obtain ⟨etail, hel⟩ := stringifyElems_cons x xs
    obtain ⟨c, t, hct, hstart⟩ := stringifyChars_head x
    have hhd : (stringifyElems (x :: xs) ++ ']' :: rest).head? ≠ some ']' := by
      rw [hel, hct]
      simp only [List.cons_append, List.append_assoc, List.head?_cons, ne_eq,
        Option.some.injEq]
      rcases hstart with h | h | h | h | h | h | h | h
      · subst h; decide
      · subst h; decide
      · subst h; decide
      · subst h; decide
      · subst h; decide
      · subst h; decide
      · subst h; decide
      · exact digit_ne h (by decide)
    simp only [reduceIte, if_neg hhd]
    rw [parseElems_stringify (x :: xs) f rest (by simp) hsz]
    simp
  | .obj [], fuel, rest, hf, _ => by
    obtain ⟨f, rfl⟩ : ∃ f, fuel = f + 1 := ⟨fuel - 1, by omega⟩
    rw [stringifyChars, stringifyMembers, List.nil_append, List.cons_append,
      List.singleton_append, parseVal]
    simp
  | .obj (kv :: fs), fuel, rest, hf, _ => by
    obtain ⟨f, rfl⟩ : ∃ f, fuel = f + 1 := ⟨fuel - 1, by omega⟩
    have hsz : tsizeM (kv :: fs) < f := by rw [tsize] at hf; omega
    rw [stringifyChars, List.cons_append, List.append_assoc, List.singleton_append,
      parseVal]
    obtain ⟨mtail, hml⟩ := stringifyMembers_head kv fs
    have hhd : (stringifyMembers (kv :: fs) ++ '\x7d' :: rest).head? ≠ some '\x7d' := by
      rw [hml]
      simp only [List.cons_append, List.head?_cons, ne_eq, Option.some.injEq]
      decide
    simp only [reduceIte, if_neg hhd]
    rw [parseMembers_stringify (kv :: fs) f rest (by simp) hsz]
    simp
  termination_by v => sizeOf v

theorem parseElems_stringify : ∀ (xs : List JValue) (fuel : Nat) (rest : List Char),
    xs ≠ [] → tsizeL xs < fuel →
    parseElems fuel (stringifyElems xs ++ ']' :: rest) = some (xs, rest)
  | [], _, _, h, _ => absurd rfl h
  | [x], fuel, rest, _, hf => by
    obtain ⟨f, rfl⟩ : ∃ f, fuel = f + 1 := ⟨fuel - 1, by omega⟩
    have hx : tsize x < f := by rw [tsizeL, tsizeL] at hf; omega
    rw [stringifyElems, parseElems]
    rw [parseVal_stringify x f (']' :: rest) hx (headNotDigit_cons (by decide) _)]
    simp
  | x :: y :: xs, fuel, rest, _, hf => by
    obtain ⟨f, rfl⟩ : ∃ f, fuel = f + 1 := ⟨fuel - 1, by omega⟩
    have hx : tsize x < f := by rw [tsizeL] at hf; omega
    have hrest : tsizeL (y :: xs) < f := by rw [tsizeL] at hf; omega
    rw [stringifyElems, List.append_assoc, List.cons_append, parseElems]
    rw [parseVal_stringify x f _ hx (headNotDigit_cons (by decide) _)]
    simp only []
    rw [parseElems_stringify (y :: xs) f rest (by simp) hrest]
    simp
  termination_by xs => sizeOf xs

theorem parseMembers_stringify : ∀ (fs : List (String × JValue)) (fuel : Nat)
    (rest : List Char), fs ≠ [] → tsizeM fs < fuel →
    parseMembers fuel (stringifyMembers fs ++ '\x7d' :: rest) = some (fs, rest)
  | [], _, _, h, _ => absurd rfl h
  | [(k, v)], fuel, rest, _, hf => by
    obtain ⟨f, rfl⟩ : ∃ f, fuel = f + 1 := ⟨fuel - 1, by omega⟩
    have hv : tsize v < f := by rw [tsizeM, tsizeM] at hf; simp at hf; omega
    rw [stringifyMembers]
    simp only [List.cons_append, List.append_assoc]
    rw [parseMembers]
    simp only [parseStringBody_escape]
    rw [parseVal_stringify v f _ hv (headNotDigit_cons (by decide) _)]
    simp [strMk_toList]
  | (k, v) :: kv2 :: fs, fuel, rest, _, hf => by
    obtain ⟨f, rfl⟩ : ∃ f, fuel = f + 1 := ⟨fuel - 1, by omega⟩
    have hv : tsize v < f := by rw [tsizeM] at hf; simp at hf; omega
    have hrest : tsizeM (kv2 :: fs) < f := by rw [tsizeM] at hf; simp at hf; omega
    rw [stringifyMembers]
    simp only [List.cons_append, List.append_assoc]
    rw [parseMembers]
    simp only [parseStringBody_escape]
    rw [parseVal_stringify v f _ hv (headNotDigit_cons (by decide) _)]
    simp only []
    rw [parseMembers_stringify (kv2 :: fs) f rest (by simp) hrest]
    simp [strMk_toList]
  termination_by fs => sizeOf fs

end

mutual

theorem tsize_le_length : ∀ v : JValue, tsize v ≤ (stringifyChars v).length
  | .null => by rw [tsize, stringifyChars]; simp
  | .bool true => by rw [tsize, stringifyChars]; simp
  | .bool false => by rw [tsize, stringifyChars]; simp
  | .num n => by
    rw [tsize, stringifyChars, intChars]
    split
    · simp
    · have := natChars_ne_nil (Int.toNat n)
      cases hnc : natChars n.toNat with
      | nil => exact absurd hnc this
      | cons c t => simp [hnc]
  | .str s => by rw [tsize, stringifyChars]; simp
  | .arr xs => by
    rw [tsize, stringifyChars]
    have := tsizeL_le_length xs
    simp
    omega
  | .obj fs => by
    rw [tsize, stringifyChars]
    have := tsizeM_le_length fs
    simp
    omega

theorem tsizeL_le_length : ∀ xs : List JValue,
    tsizeL xs ≤ 1 + (stringifyElems xs).length
  | [] => by rw [tsizeL]; omega
  | [x] => by
    rw [tsizeL, tsizeL, stringifyElems]
    have := tsize_le_length x
    omega
  | x :: y :: xs => by
    rw [tsizeL, stringifyElems]
    have h1 := tsize_le_length x
    have h2 := tsizeL_le_length (y :: xs)
    simp
    omega

theorem tsizeM_le_length : ∀ fs : List (String × JValue),
    tsizeM fs ≤ 1 + (stringifyMembers fs).length
  | [] => by rw [tsizeM]; omega
  | [kv] => by
    rw [tsizeM, tsizeM, stringifyMembers]
    have := tsize_le_length kv.2
    simp
    omega
  | kv :: kv2 :: fs => by
    rw [tsizeM, stringifyMembers]
    have h1 := tsize_le_length kv.2
    have h2 := tsizeM_le_length (kv2 :: fs)
    simp
    omega

end

/-- `JSON.parse ∘ JSON.stringify` is the identity on the modelled values. -/
theorem jsonParse_stringify (v : JValue) : jsonParse (jsonStringify v) = some v := by
  rw [jsonParse, jsonStringify]
  have hlist : (String.mk (stringifyChars v)).toList = stringifyChars v := rfl
  rw [hlist]
  have h1 : tsize v < (stringifyChars v).length + 1 :=
    Nat.lt_succ_of_le (tsize_le_length v)
  have h2 := parseVal_stringify v ((stringifyChars v).length + 1) [] h1 headNotDigit_nil
  rw [List.append_nil] at h2
  rw [h2]

/-! ## Claim C7: presence round-trip -/

/-- C7: for every token and session record, writing the record into the
Presence Directory (`addUser`) and reading it back by the same token
(`getUserByJWT`) returns a record whose identifiers and rooms equal those
written (round-trip through the store's serialization). -/
theorem C7_presence_roundtrip (st : PresenceState) (token socketId : String)
    (authenticated : Bool) (identifiers : JValue) (rooms : List String) (now : Nat) :
    getUserByJWT (addUser st token socketId authenticated identifiers rooms now) token =
      some { socketId := socketId
             authenticated := authenticated
             identifiers := identifiers
             connectedAt := Nat.repr now
             lastSeen := Nat.repr now
             rooms := .arr (rooms.map .str) } := by
  rw [addUser, saveUserData]
  split_ifs with h
  · rw [getUserByJWT]
    simp [jsonParse_stringify, boolString]
    cases authenticated <;> simp
  · rw [getUserByJWT]
    simp [jsonParse_stringify, boolString]
    cases authenticated <;> simp

/-! ## Claim C3: script-tag sanitization -/

/-- A declared string parameter named `message` with `sanitize=true` and no
pattern. -/
def messageParam : EventParameter :=
  { name := "message", type := .string, required := true, sanitize := true }

/-- C3: validating `{message: '<script>alert(1)</script>Hi'}` against the
sanitize=true string parameter `message` succeeds, and the produced value
contains no `<script>` substring while still containing `Hi`. -/
theorem C3_sanitize_script_tag :
    validateAndSanitizeData
        (.obj [("message", .str "<script>alert(1)</script>Hi")]) [messageParam] =
      .ok [("message", .str "Hi")] ∧
    ¬ List.IsInfix "<script>".toList "Hi".toList ∧
    List.IsInfix "Hi".toList "Hi".toList := by
  refine ⟨?_, by decide, by decide⟩
  simp [validateAndSanitizeData, vasdStep, messageParam, getFieldJs, jLookup,
    List.find?, sanitizeSwitch, sanitizeString, stripScriptTags, ciPrefix, openScript,
    closeScript, findCloseScript, scriptBoundary, isWordChar, stripJsUri, jsUri,
    stripOnAttr, jsTrim, isJsWs, objSet, List.foldlM, Except.map]

/-! ## Claim C10: members always pass `canUserJoinRoom` -/

/-- C10: for an existing room, a user already in `members` gets
`{canJoin: true}` unconditionally — the membership check precedes both the
capacity check and the `allowSelfJoin` policy check. -/
theorem C10_member_can_always_join (st : RoomsState) (roomId u : String) (room : Room)
    (h1 : getRoom st roomId = some room) (h2 : room.members.contains u = true) :
    canUserJoinRoom st roomId u = ⟨true, none⟩ := by
  rw [getRoom] at h1
  have h2m : u ∈ room.members := by simpa using h2
  rw [canUserJoinRoom, h1]
  simp [h2m]

/-- A full, no-self-join room whose sole member is `alice`. -/
def c10room : Room :=
  { id := "r", name := "r", description := none, allowSelfJoin := false
    maxMembers := some 1, isPrivate := false, members := ["alice"]
    createdAt := 0, updatedAt := 0 }

/-- Witness for C10: `alice`, already a member of a full room with
`allowSelfJoin=false`, is still reported able to join. -/
theorem C10_member_can_always_join_witness :
    canUserJoinRoom (createRoom emptyRooms c10room) "r" "alice" = ⟨true, none⟩ :=
  C10_member_can_always_join (createRoom emptyRooms c10room) "r" "alice" c10room
    (by rfl) (by rfl)

/-! ## Claim C5: removeMember semantics -/

/-- C5: on an existing room, removing a present member with
`allowSelfJoin=false` and `force=false` fails with the self-removal reason;
removing an absent member succeeds with no change (idempotent, for either
`force`); removing a present member with `force=true` always succeeds and the
member is gone from the room's member list afterwards. -/
theorem C5_removeMember (st : RoomsState) (roomId u : String) (room : Room) (now : Nat)
    (h : getRoom st roomId = some room) :
    (room.members.contains u = true → room.allowSelfJoin = false →
      removeMemberFromRoom st roomId u false now =
        (st, ⟨false, some "Room does not allow self-removal"⟩)) ∧
    (∀ force, room.members.contains u = false →
      removeMemberFromRoom st roomId u force now = (st, ⟨true, none⟩)) ∧
    (room.members.contains u = true →
      (removeMemberFromRoom st roomId u true now).2 = ⟨true, none⟩ ∧
      ∀ room2, getRoom (removeMemberFromRoom st roomId u true now).1 roomId = some room2 →
        room2.members.contains u = false) := by
  rw [getRoom] at h
  refine ⟨?_, ?_, ?_⟩
  · intro hm hsj
    have hmem : u ∈ room.members := by simpa using hm
    rw [removeMemberFromRoom, h]
    simp [hmem, hsj]
  · intro force hm
    have hnmem : u ∉ room.members := by simpa using hm
    rw [removeMemberFromRoom, h]
    simp [hnmem]
  · intro hm
    have hmem : u ∈ room.members := by simpa using hm
    rw [removeMemberFromRoom, h]
    constructor
    · simp [hmem, updateRoom, h]
    · intro room2 h2
      simp [hmem, updateRoom, h, getRoom] at h2
      simp [← h2, List.mem_filter]

/-- A no-self-join room with members `alice` and `bob`. -/
def c5room : Room :=
  { id := "p", name := "p", description := none, allowSelfJoin := false
    maxMembers := none, isPrivate := true, members := ["alice", "bob"]
    createdAt := 0, updatedAt := 0 }

/-- Witness for C5 at the concrete room `c5room`: `alice`'s self-removal is
refused; removing absent `carol` succeeds; force-removing `alice` succeeds. -/
theorem C5_removeMember_witness :
    removeMemberFromRoom (createRoom emptyRooms c5room) "p" "alice" false 1 =
      (createRoom emptyRooms c5room, ⟨false, some "Room does not allow self-removal"⟩) ∧
    removeMemberFromRoom (createRoom emptyRooms c5room) "p" "carol" false 1 =
      (createRoom emptyRooms c5room, ⟨true, none⟩) ∧
    (removeMemberFromRoom (createRoom emptyRooms c5room) "p" "alice" true 1).2 =
      ⟨true, none⟩ :=
  ⟨(C5_removeMember (createRoom emptyRooms c5room) "p" "alice" c5room 1 rfl).1
      (by rfl) (by rfl),
    (C5_removeMember (createRoom emptyRooms c5room) "p" "carol" c5room 1 rfl).2.1
      false (by rfl),
    ((C5_removeMember (createRoom emptyRooms c5room) "p" "alice" c5room 1 rfl).2.2
      (by rfl)).1⟩

/-! ## Claim C4: addMember semantics -/

/-- A room at capacity whose sole member is `alice`. -/
def c4room : Room :=
  { id := "g", name := "g", description := none, allowSelfJoin := true
    maxMembers := some 1, isPrivate := false, members := ["alice"]
    createdAt := 0, updatedAt := 0 }

/-- C4 counterexample: `alice` is already a member of the full room, so the
claim's idempotent clause says re-adding her succeeds; the code checks
capacity before membership and fails with `Room is full`. -/
theorem C4_capacity_before_membership_counterexample :
    c4room.members.contains "alice" = true ∧
    (addMemberToRoom (createRoom emptyRooms c4room) "g" "alice" 0).2 =
      ⟨false, "Room is full"⟩ := by
  constructor
  · rfl
  · rfl

/-- The membership fact `(k, v) ∈ detailSet l k v`. -/
theorem detailSet_mem (l : List (String × RoomMember)) (k : String) (v : RoomMember) :
    (k, v) ∈ detailSet l k v := by
  rw [detailSet]
  split
  · rename_i hany
    rw [List.any_eq_true] at hany
    obtain ⟨p, hp, hpk⟩ := hany
    rw [List.mem_map]
    exact ⟨p, hp, by simp [hpk]⟩
  · simp

/-- The scenario room `general` with `allowSelfJoin=true, maxMembers=2`. -/
def genRoom : Room :=
  { id := "general", name := "general", description := none, allowSelfJoin := true
    maxMembers := some 2, isPrivate := false, members := []
    createdAt := 0, updatedAt := 0 }

/-- C4 (amended): `addMemberToRoom` fails `Room not found` on a missing room;
fails `Room is full` whenever the room is at capacity — the capacity check
precedes the membership check, so this happens even when the member is
already in the room; below capacity an existing member is re-added
idempotently with success and no change; otherwise the call succeeds, the
member is appended and a `{joinedAt, role}` join entry is recorded. The
`general`/alice/bob/carol scenario behaves as specified. -/
theorem C4_addMember_amended (st : RoomsState) (roomId u : String) (now : Nat) :
    (getRoom st roomId = none →
      addMemberToRoom st roomId u now = (st, ⟨false, "Room not found"⟩)) ∧
    (∀ room, getRoom st roomId = some room → roomAtCapacity room = true →
      addMemberToRoom st roomId u now = (st, ⟨false, "Room is full"⟩)) ∧
    (∀ room, getRoom st roomId = some room → roomAtCapacity room = false →
      room.members.contains u = true →
      addMemberToRoom st roomId u now = (st, ⟨true, "User is already a member"⟩)) ∧
    (∀ room, getRoom st roomId = some room → roomAtCapacity room = false →
      room.members.contains u = false →
      (addMemberToRoom st roomId u now).2 = ⟨true, "Member added successfully"⟩ ∧
      (∀ room2, getRoom (addMemberToRoom st roomId u now).1 roomId = some room2 →
        room2.members = room.members ++ [u]) ∧
      (u, ⟨u, now, "member"⟩) ∈ (addMemberToRoom st roomId u now).1.details roomId) ∧
    ((addMemberToRoom (createRoom emptyRooms genRoom) "general" "alice" 0).2 =
        ⟨true, "Member added successfully"⟩ ∧
      (addMemberToRoom
        (addMemberToRoom (createRoom emptyRooms genRoom) "general" "alice" 0).1
        "general" "bob" 1).2 = ⟨true, "Member added successfully"⟩ ∧
      (addMemberToRoom
        (addMemberToRoom
          (addMemberToRoom (createRoom emptyRooms genRoom) "general" "alice" 0).1
          "general" "bob" 1).1 "general" "carol" 2).2 = ⟨false, "Room is full"⟩) := by
  refine ⟨?_, ?_, ?_, ?_, by refine ⟨rfl, rfl, rfl⟩⟩
  · intro h
    rw [getRoom] at h
    rw [addMemberToRoom, h]
  · intro room h hcap
    rw [getRoom] at h
    rw [addMemberToRoom, h]
    simp [hcap]
  · intro room h hcap hm
    have hmem : u ∈ room.members := by simpa using hm
    rw [getRoom] at h
    rw [addMemberToRoom, h]
    simp [hcap, hmem]
  · intro room h hcap hm
    have hnmem : u ∉ room.members := by simpa using hm
    rw [getRoom] at h
    refine ⟨?_, ?_, ?_⟩
    · rw [addMemberToRoom, h]
      simp [hcap, hnmem, updateRoom, h]
    · intro room2 h2
      rw [addMemberToRoom, h] at h2
      simp [hcap, hnmem, updateRoom, h, getRoom] at h2
      rw [← h2]
    · rw [addMemberToRoom, h]
      simp [hcap, hnmem, updateRoom, h]
      exact detailSet_mem _ _ _

/-- Witness for C4 (amended), discharging each hypothesis at concrete rooms:
missing room, full room (`c4room`), an existing member below capacity, and a
fresh join recording its entry. -/
theorem C4_addMember_amended_witness :
    addMemberToRoom emptyRooms "nope" "alice" 0 =
      (emptyRooms, ⟨false, "Room not found"⟩) ∧
    addMemberToRoom (createRoom emptyRooms c4room) "g" "bob" 0 =
      (createRoom emptyRooms c4room, ⟨false, "Room is full"⟩) ∧
    addMemberToRoom (createRoom emptyRooms c5room) "p" "alice" 0 =
      (createRoom emptyRooms c5room, ⟨true, "User is already a member"⟩) ∧
    (addMemberToRoom (createRoom emptyRooms genRoom) "general" "alice" 0).2 =
      ⟨true, "Member added successfully"⟩ ∧
    ("alice", ⟨"alice", 0, "member"⟩) ∈
      (addMemberToRoom (createRoom emptyRooms genRoom) "general" "alice" 0).1.details
        "general" :=
  ⟨(C4_addMember_amended emptyRooms "nope" "alice" 0).1 rfl,
    (C4_addMember_amended (createRoom emptyRooms c4room) "g" "bob" 0).2.1 c4room
      rfl (by rfl),
    (C4_addMember_amended (createRoom emptyRooms c5room) "p" "alice" 0).2.2.1 c5room
      rfl (by rfl) (by rfl),
    ((C4_addMember_amended (createRoom emptyRooms genRoom) "general" "alice" 0).2.2.2.1
      genRoom rfl (by rfl) (by rfl)).1,
    ((C4_addMember_amended (createRoom emptyRooms genRoom) "general" "alice" 0).2.2.2.1
      genRoom rfl (by rfl) (by rfl)).2.2⟩

/-! ## Claim C9: allow-list output -/

theorem objSet_mem {acc : List (String × JValue)} {k : String} {v : JValue}
    {kv : String × JValue} (h : kv ∈ objSet acc k v) : kv = (k, v) ∨ kv ∈ acc := by
  rw [objSet] at h
  split at h
  · rw [List.mem_map] at h
    obtain ⟨p, hp, hpe⟩ := h
    by_cases hc : p.1 == k
    · rw [if_pos hc] at hpe
      left; exact hpe.symm
    · rw [if_neg hc] at hpe
      right; rw [← hpe]; exact hp
  · rw [List.mem_append] at h
    rcases h with h | h
    · right; exact h
    · left; simpa using h

/-- What a successful `vasdStep` can produce: the untouched accumulator, or
the accumulator updated at the parameter's name with a value that passed the
type/sanitize switch. -/
theorem vasdStep_ok {data : JValue} {acc : List (String × JValue)}
    {param : EventParameter} {out : List (String × JValue)}
    (h : vasdStep data acc param = .ok out) :
    out = acc ∨ ∃ v0 v2, getFieldJs data param.name = .ok (some v0) ∧
      sanitizeSwitch v0 param = .ok v2 ∧ out = objSet acc param.name v2 := by
  rw [vasdStep] at h
  split at h
  · exact absurd h (by simp)
  · split at h
    · split at h
      · exact absurd h (by simp)
      · left; simpa using h.symm
    · split at h
      · exact absurd h (by simp)
      · left; simpa using h.symm
    · rename_i v hn1 hn2
      split at h
      · rename_i v2 hswitch
        right
        refine ⟨v, v2, ?_, hswitch, by simpa using h.symm⟩
        assumption
      · exact absurd h (by simp)

theorem vasd_fold_keys (data : JValue) : ∀ (params : List EventParameter)
    (acc out : List (String × JValue)),
    List.foldlM (vasdStep data) acc params = .ok out →
    ∀ kv ∈ out,
      (∃ p ∈ params, p.name = kv.1 ∧ ∃ v0,
        getFieldJs data p.name = .ok (some v0) ∧ sanitizeSwitch v0 p = .ok kv.2) ∨
      kv ∈ acc
  | [], acc, out, h, kv, hkv => by
    simp only [List.foldlM] at h
    right
    have hpe : (pure acc : Except String (List (String × JValue))) = Except.ok acc := rfl
    rw [hpe] at h
    rw [Except.ok.inj h]
    exact hkv
  | p :: ps, acc, out, h, kv, hkv => by
    rw [List.foldlM_cons] at h
    cases hs : vasdStep data acc p with
    | error e =>
      rw [hs] at h
      simp only [bind, Except.bind] at h
      exact absurd h (by simp)
    | ok acc2 =>
      rw [hs] at h
      simp only [bind, Except.bind] at h
      have hrec := vasd_fold_keys data ps acc2 out h kv hkv
      rcases hrec with ⟨q, hq, hqs⟩ | hacc
      · exact Or.inl ⟨q, List.mem_cons_of_mem p hq, hqs⟩
      · rcases vasdStep_ok hs with rfl | ⟨v0, v2, hget, hsan, rfl⟩
        · exact Or.inr hacc
        · rcases objSet_mem hacc with rfl | hkv2
          · exact Or.inl ⟨p, List.mem_cons_self p ps, rfl, v0, hget, hsan⟩
          · exact Or.inr hkv2

/-- C9: a successful `validateAndSanitizeData` run returns an object whose
every field is named by a declared parameter and holds a value that passed
that parameter's validation switch — undeclared input fields never appear. -/
theorem C9_output_allowlist (data : JValue) (params : List EventParameter)
    (out : List (String × JValue)) (h : validateAndSanitizeData data params = .ok out) :
    ∀ kv ∈ out, ∃ p ∈ params, p.name = kv.1 ∧ ∃ v0,
      getFieldJs data p.name = .ok (some v0) ∧ sanitizeSwitch v0 p = .ok kv.2 := by
  intro kv hkv
  rw [validateAndSanitizeData] at h
  rcases vasd_fold_keys data params [] out h kv hkv with h1 | h2
  · exact h1
  · exact absurd h2 (by simp)

/-- A declared numeric parameter named `a`. -/
def c9param : EventParameter :=
  { name := "a", type := .number, required := true, sanitize := false }

/-- Witness for C9: validating `{a: 1, evil: 2}` against the single declared
parameter `a` yields an output whose only field, `a`, is declared and
validated (`evil` was dropped). -/
theorem C9_output_allowlist_witness :
    ∃ p ∈ [c9param], p.name = "a" ∧ ∃ v0,
      getFieldJs (.obj [("a", .num 1), ("evil", .num 2)]) p.name = .ok (some v0) ∧
      sanitizeSwitch v0 p = .ok (.num 1) :=
  C9_output_allowlist (.obj [("a", .num 1), ("evil", .num 2)]) [c9param]
    [("a", .num 1)] (by rfl) ("a", .num 1) (by simp)

/-! ## Claim C1: concurrent addMember -/

/-- One store round trip of one call preserves the capacity invariant. -/
theorem stepProc_preserves (m : Nat) (hm : 0 < m) (room? : Option Room) (p : AddProc)
    (now : Nat)
    (hroom : ∀ r, room? = some r → r.members.length ≤ m ∧ r.maxMembers = some m)
    (hp : phaseOk m p.phase) :
    (∀ r, (stepProc room? p now).1 = some r →
      r.members.length ≤ m ∧ r.maxMembers = some m) ∧
    phaseOk m (stepProc room? p now).2.phase := by
  cases hph : p.phase with
  | start =>
    rw [stepProc.eq_def, hph]
    simp only []
    cases room? with
    | none => exact ⟨hroom, trivial⟩
    | some room =>
      simp only []
      obtain ⟨hlen, hmax⟩ := hroom room rfl
      by_cases hcap : roomAtCapacity room = true
      · simp only [hcap, reduceIte]
        exact ⟨hroom, trivial⟩
      · rw [if_neg hcap]
        by_cases hmem : room.members.contains p.uuid = true
        · simp only [hmem, reduceIte]
          exact ⟨hroom, trivial⟩
        · rw [if_neg hmem]
          refine ⟨hroom, ?_⟩
          simp only [phaseOk]
          have hlt : room.members.length < m := by
            rw [roomAtCapacity, hmax] at hcap
            simp at hcap
            omega
          simp
          omega
  | mid pending =>
    rw [hph] at hp
    simp only [phaseOk] at hp
    rw [stepProc.eq_def, hph]
    simp only []
    cases room? with
    | none => exact ⟨hroom, trivial⟩
    | some room2 =>
      simp only []
      obtain ⟨_, hmax2⟩ := hroom room2 rfl
      refine ⟨hroom, ?_⟩
      simp only [phaseOk]
      exact ⟨hp, hmax2⟩
  | write r0 =>
    rw [hph] at hp
    simp only [phaseOk] at hp
    rw [stepProc.eq_def, hph]
    simp only []
    refine ⟨?_, trivial⟩
    intro r hr
    rw [← Option.some.inj hr]
    exact hp
  | done b msg =>
    rw [stepProc.eq_def, hph]
    simp only []
    exact ⟨hroom, hp⟩

theorem stepSys_preserves (m : Nat) (hm : 0 < m) (s : CState) (i : Nat)
    (hinv : cinv m s) : cinv m (stepSys s i) := by
  obtain ⟨hroom, hprocs⟩ := hinv
  rw [stepSys]
  cases hp : s.procs[i]? with
  | none => exact ⟨hroom, hprocs⟩
  | some p =>
    have hpin : p ∈ s.procs := List.getElem?_mem hp
    have hstep := stepProc_preserves m hm s.room p s.clock hroom (hprocs p hpin)
    refine ⟨hstep.1, ?_⟩
    intro q hq
    rcases List.mem_or_eq_of_mem_set hq with hq | rfl
    · exact hprocs q hq
    · exact hstep.2

theorem runSched_preserves (m : Nat) (hm : 0 < m) (sched : List Nat) :
    ∀ s : CState, cinv m s → cinv m (runSched s sched) := by
  induction sched with
  | nil => intro s h; exact h
  | cons i is ih =>
    intro s h
    rw [runSched, List.foldl_cons]
    exact ih _ (stepSys_preserves m hm s i h)

/-- C1 (amended): under every interleaving of concurrent `addMemberToRoom`
calls on one room with a positive `maxMembers`, the stored member list never
exceeds `maxMembers` — but not because the check and append are one atomic
store round trip: each call is a three-round-trip read-check-write (see the
counterexample, where an interleaving loses a concurrent join). -/
theorem C1_capacity_under_interleaving (room0 : Room) (m : Nat) (uuids : List String)
    (sched : List Nat) (hm : room0.maxMembers = some m) (hpos : 0 < m)
    (hlen : room0.members.length ≤ m) :
    ∀ r, (runSched ⟨some room0, initProcs uuids, 0⟩ sched).room = some r →
      r.members.length ≤ m := by
  intro r hr
  have h0 : cinv m ⟨some room0, initProcs uuids, 0⟩ := by
    constructor
    · intro r' hr'
      have : r' = room0 := by simpa using hr'.symm
      rw [this]
      exact ⟨hlen, hm⟩
    · intro p hp
      rw [initProcs] at hp
      simp only [List.mem_map] at hp
      obtain ⟨u, _, rfl⟩ := hp
      trivial
  exact ((runSched_preserves m hpos sched _ h0).1 r hr).1

/-- The room the counterexample interleaving runs on: empty, capacity 5. -/
def cxRoom : Room :=
  { id := "r", name := "r", description := none, allowSelfJoin := true
    maxMembers := some 5, isPrivate := false, members := [], createdAt := 0
    updatedAt := 0 }

/-- C1 counterexample: the schedule read-A, read-A2, write-A interleaved with
the same for B shows the claim's atomicity is false. Both calls report
success and each performs 3 store round trips on the room key (not 1), yet
the final member list is `["b"]` — member `a` is lost, an outcome no serial
execution of the two calls produces (those give `["a","b"]` / `["b","a"]`).
The check+append is therefore neither a single backing-store round trip nor
observably atomic. -/
theorem C1_not_atomic_counterexample :
    ((runSched ⟨some cxRoom, initProcs ["a", "b"], 0⟩ [0, 1, 0, 1, 0, 1]).room.map
        Room.members) = some ["b"] ∧
    (runSched ⟨some cxRoom, initProcs ["a", "b"], 0⟩ [0, 1, 0, 1, 0, 1]).procs.map
        (fun p => p.phase) =
      [.done true "Member added successfully", .done true "Member added successfully"] ∧
    (runSched ⟨some cxRoom, initProcs ["a", "b"], 0⟩ [0, 1, 0, 1, 0, 1]).procs.map
        (fun p => p.ops) = [3, 3] ∧
    ((runSched ⟨some cxRoom, initProcs ["a", "b"], 0⟩ [0, 0, 0, 1, 1, 1]).room.map
        Room.members) = some ["a", "b"] ∧
    ((runSched ⟨some cxRoom, initProcs ["a", "b"], 0⟩ [1, 1, 1, 0, 0, 0]).room.map
        Room.members) = some ["b", "a"] ∧
    (["b"] : List String) ≠ ["a", "b"] ∧ (["b"] : List String) ≠ ["b", "a"] := by
  refine ⟨rfl, rfl, rfl, rfl, rfl, by decide, by decide⟩

/-- The final room of the counterexample interleaving. -/
def c1finalRoom : Room :=
  { id := "r", name := "r", description := none, allowSelfJoin := true
    maxMembers := some 5, isPrivate := false, members := ["b"], createdAt := 0
    updatedAt := 3 }

/-- Witness for C1 (amended) at the counterexample interleaving: the final
room respects the capacity bound. -/
theorem C1_capacity_under_interleaving_witness : c1finalRoom.members.length ≤ 5 :=
  C1_capacity_under_interleaving cxRoom 5 ["a", "b"] [0, 1, 0, 1, 0, 1] rfl
    (by decide) (by decide) c1finalRoom (by rfl)

/-! ## Claim C6: registry map lemmas -/

section AssocList

variable {κ α : Type} [DecidableEq κ]

theorem alGet_cons_ne {p : κ × α} {t : List (κ × α)} {k2 : κ} (h : p.1 ≠ k2) :
    alGet (p :: t) k2 = alGet t k2 := by
  rw [alGet, List.find?_cons]
  have hd : (decide (p.1 = k2)) = false := by simp [h]
  rw [hd]
  rfl

theorem alGet_cons_eq {p : κ × α} {t : List (κ × α)} {k2 : κ} (h : p.1 = k2) :
    alGet (p :: t) k2 = some p.2 := by
  rw [alGet, List.find?_cons]
  have hd : (decide (p.1 = k2)) = true := by simp [h]
  rw [hd]
  rfl

theorem alGet_mapReplace (t : List (κ × α)) (k k2 : κ) (v : α) (h : k2 ≠ k) :
    alGet (t.map (fun p => if p.1 = k then (k, v) else p)) k2 = alGet t k2 := by
  induction t with
  | nil => rfl
  | cons p t ih =>
    rw [List.map_cons]
    by_cases hpk : p.1 = k
    · rw [if_pos hpk]
      rw [alGet_cons_ne (p := (k, v)) (Ne.symm h), alGet_cons_ne (hpk ▸ Ne.symm h)]
      exact ih
    · rw [if_neg hpk]
      by_cases hp2 : p.1 = k2
      · rw [alGet_cons_eq hp2, alGet_cons_eq hp2]
      · rw [alGet_cons_ne hp2, alGet_cons_ne hp2]
        exact ih

theorem alGet_of_any_false (l : List (κ × α)) (k : κ)
    (h : l.any (fun p => decide (p.1 = k)) = false) : alGet l k = none := by
  induction l with
  | nil => rfl
  | cons p t ih =>
    simp only [List.any_cons, Bool.or_eq_false_iff] at h
    have hne : p.1 ≠ k := by
      intro he
      rw [he] at h
      simp at h
    rw [alGet_cons_ne hne]
    exact ih h.2

theorem alGet_set (l : List (κ × α)) (k k2 : κ) (v : α) :
    alGet (alSet l k v) k2 = if k2 = k then some v else alGet l k2 := by
  rw [alSet]
  split
  · rename_i hany
    by_cases hk : k2 = k
    · subst hk
      rw [if_pos rfl]
      induction l with
      | nil => simp at hany
      | cons p t ih =>
        simp only [List.any_cons, Bool.or_eq_true] at hany
        rw [List.map_cons]
        by_cases hpk : p.1 = k2
        · rw [if_pos hpk]
          exact alGet_cons_eq rfl
        · rw [if_neg hpk, alGet_cons_ne hpk]
          rcases hany with hh | ht
          · simp [hpk] at hh
          · exact ih ht
    · rw [if_neg hk]
      exact alGet_mapReplace l k k2 v hk
  · rename_i hany
    rw [Bool.not_eq_true] at hany
    by_cases hk : k2 = k
    · subst hk
      rw [if_pos rfl, alGet, List.find?_append]
      rw [show (List.find? (fun p => decide (p.1 = k2)) l) = none from ?_]
      · simp
      · have := alGet_of_any_false l k2 hany
        rw [alGet] at this
        exact Option.map_eq_none.mp this
    · rw [if_neg hk, alGet, List.find?_append, alGet]
      cases hf : List.find? (fun p => decide (p.1 = k2)) l with
      | some q => simp
      | none => simp [Ne.symm hk]

theorem alGet_del (l : List (κ × α)) (k k2 : κ) :
    alGet (alDel l k) k2 = if k2 = k then none else alGet l k2 := by
  rw [alDel]
  induction l with
  | nil => simp [alGet]
  | cons p t ih =>
    by_cases hpk : p.1 = k
    · rw [List.filter_cons_of_neg (by simp [hpk])]
      rw [ih]
      by_cases hk : k2 = k
      · simp [hk]
      · rw [if_neg hk, if_neg hk, alGet_cons_ne (by rw [hpk]; exact Ne.symm hk)]
    · rw [List.filter_cons_of_pos (by simp [hpk])]
      by_cases hp2 : p.1 = k2
      · have hk : ¬ k2 = k := by rw [← hp2]; exact fun hh => hpk (hh ▸ rfl)
        rw [if_neg hk, alGet_cons_eq hp2, alGet_cons_eq hp2]
      · rw [alGet_cons_ne hp2, ih]
        by_cases hk : k2 = k
        · simp [hk]
        · rw [if_neg hk, if_neg hk, alGet_cons_ne hp2]

theorem alGet_filterKey (l : List (κ × α)) (k k2 : κ) :
    alGet (l.filter (fun p => !(decide (p.1 = k)))) k2 =
      if k2 = k then none else alGet l k2 :=
  alGet_del l k k2

/-- With duplicate-free keys, membership determines `alGet`. -/
theorem alGet_of_mem {l : List (κ × α)} (hn : (l.map (·.1)).Nodup) {k : κ} {x : α}
    (h : (k, x) ∈ l) : alGet l k = some x := by
  induction l with
  | nil => simp at h
  | cons p t ih =>
    rw [List.map_cons, List.nodup_cons] at hn
    rcases List.mem_cons.mp h with rfl | hmem
    · exact alGet_cons_eq rfl
    · have hne : p.1 ≠ k := by
        intro he
        exact hn.1 (he ▸ (List.mem_map.mpr ⟨(k, x), hmem, rfl⟩))
      rw [alGet_cons_ne hne]
      exact ih hn.2 hmem

/-- `alGet` hits are members. -/
theorem mem_of_alGet {l : List (κ × α)} {k : κ} {x : α} (h : alGet l k = some x) :
    (k, x) ∈ l := by
  rw [alGet] at h
  cases hf : l.find? (fun p => decide (p.1 = k)) with
  | none => rw [hf] at h; simp at h
  | some q =>
    rw [hf] at h
    have hq := List.find?_some hf
    have hqm := List.mem_of_find?_eq_some hf
    simp at hq h
    rw [← h, ← hq]
    exact hqm

theorem any_of_alGet {l : List (κ × α)} {k : κ} {x : α} (h : alGet l k = some x) :
    l.any (fun p => decide (p.1 = k)) = true := by
  rw [List.any_eq_true]
  exact ⟨(k, x), mem_of_alGet h, by simp⟩

theorem alSet_mem {l : List (κ × α)} {k : κ} {v : α} {p : κ × α}
    (h : p ∈ alSet l k v) : p = (k, v) ∨ p ∈ l := by
  rw [alSet] at h
  split at h
  · rw [List.mem_map] at h
    obtain ⟨q, hq, hqe⟩ := h
    by_cases hqk : q.1 = k
    · rw [if_pos hqk] at hqe
      left; exact hqe.symm
    · rw [if_neg hqk] at hqe
      right; rw [← hqe]; exact hq
  · rcases List.mem_append.mp h with h | h
    · right; exact h
    · left; simpa using h

theorem alSet_keys_replace (l : List (κ × α)) (k : κ) (v : α)
    (hany : l.any (fun p => decide (p.1 = k)) = true) :
    (alSet l k v).map (·.1) = l.map (·.1) := by
  rw [alSet, if_pos hany, List.map_map]
  apply List.map_congr_left
  intro p _
  by_cases hpk : p.1 = k
  · simp [hpk]
  · simp [hpk]

theorem alSet_keys_append (l : List (κ × α)) (k : κ) (v : α)
    (hany : l.any (fun p => decide (p.1 = k)) = false) :
    (alSet l k v).map (·.1) = l.map (·.1) ++ [k] := by
  rw [alSet, if_neg (by simp [hany])]
  simp

end AssocList

/-! ## Claim C6: registry invariant -/

/-- `Set.add` membership. -/
theorem setAdd_mem (s : List Nat) (x y : Nat) : y ∈ setAdd s x ↔ y ∈ s ∨ y = x := by
  rw [setAdd]
  split
  · rename_i hx
    constructor
    · exact Or.inl
    · rintro (h | rfl)
      · exact h
      · exact hx
  · simp

theorem setAdd_nodup {s : List Nat} (h : s.Nodup) (x : Nat) : (setAdd s x).Nodup := by
  rw [setAdd]
  split
  · exact h
  · rename_i hx
    simpa [List.nodup_append] using ⟨h, hx⟩

/-- Well-formedness of the subscriber registry state: unique map keys, the
stored record's `id` equals its key, ids below the fresh-id counter,
duplicate-free index sets, the index agrees with the map, and at most one
subscriber per event name. -/
structure RegInv (m : SubscriberManager) : Prop where
  keys : (m.subscribers.map (·.1)).Nodup
  kid : ∀ p ∈ m.subscribers, p.2.id = p.1
  fresh : ∀ id sub, alGet m.subscribers id = some sub → id < m.nextId
  sets : ∀ e s, alGet m.eventHandlers e = some s → s.Nodup
  cons : ∀ e id, (∃ s, alGet m.eventHandlers e = some s ∧ id ∈ s) ↔
    (∃ sub, alGet m.subscribers id = some sub ∧ sub.eventListener = e)
  uniq : ∀ id1 id2 sub1 sub2, alGet m.subscribers id1 = some sub1 →
    alGet m.subscribers id2 = some sub2 →
    sub1.eventListener = sub2.eventListener → id1 = id2

theorem regInv_time {m : SubscriberManager} (h : RegInv m) (t : Nat) :
    RegInv { m with time := t } :=
  ⟨h.keys, h.kid, h.fresh, h.sets, h.cons, h.uniq⟩

theorem regInv_empty : RegInv emptyManager := by
  refine ⟨by simp [emptyManager], by simp [emptyManager], ?_, ?_, ?_, ?_⟩
  · intro id sub h
    simp [emptyManager, alGet] at h
  · intro e s h
    simp [emptyManager, alGet] at h
  · intro e id
    constructor
    · rintro ⟨s, hs, _⟩
      simp [emptyManager, alGet] at hs
    · rintro ⟨sub, hs, _⟩
      simp [emptyManager, alGet] at hs
  · intro id1 id2 sub1 sub2 h1
    simp [emptyManager, alGet] at h1

/-- Replacing a record in place with one of the same `id` and event name
preserves the registry invariant. -/
theorem regInv_alSet_same {m : SubscriberManager} (hinv : RegInv m) {id : Nat}
    {sub : Subscriber} (hget : alGet m.subscribers id = some sub)
    (upd : Subscriber) (hid : upd.id = id) (hel : upd.eventListener = sub.eventListener) :
    RegInv { m with subscribers := alSet m.subscribers id upd } := by
  have hany := any_of_alGet hget
  refine ⟨?_, ?_, ?_, hinv.sets, ?_, ?_⟩
  · rw [alSet_keys_replace _ _ _ hany]
    exact hinv.keys
  · intro p hp
    rcases alSet_mem hp with rfl | hp2
    · exact hid
    · exact hinv.kid p hp2
  · intro id' sub' h
    rw [alGet_set] at h
    by_cases hii : id' = id
    · rw [if_pos hii] at h
      rw [hii]
      exact hinv.fresh id sub hget
    · rw [if_neg hii] at h
      exact hinv.fresh id' sub' h
  · intro e id'
    rw [hinv.cons e id']
    constructor
    · rintro ⟨sub', hs', he'⟩
      by_cases hii : id' = id
      · subst hii
        rw [hget] at hs'
        refine ⟨upd, ?_, ?_⟩
        · rw [alGet_set, if_pos rfl]
        · rw [hel, Option.some.inj hs']
          exact he'
      · exact ⟨sub', by rw [alGet_set, if_neg hii]; exact hs', he'⟩
    · rintro ⟨sub', hs', he'⟩
      rw [alGet_set] at hs'
      by_cases hii : id' = id
      · subst hii
        rw [if_pos rfl] at hs'
        refine ⟨sub, hget, ?_⟩
        rw [← hel, Option.some.inj hs']
        exact he'
      · rw [if_neg hii] at hs'
        exact ⟨sub', hs', he'⟩
  · intro id1 id2 sub1 sub2 h1 h2 hee
    rw [alGet_set] at h1 h2
    by_cases h1i : id1 = id
    · rw [if_pos h1i] at h1
      by_cases h2i : id2 = id
      · rw [h1i, h2i]
      · rw [if_neg h2i] at h2
        rw [← Option.some.inj h1, hel] at hee
        rw [h1i]
        exact hinv.uniq id id2 sub sub2 hget h2 hee
    · rw [if_neg h1i] at h1
      by_cases h2i : id2 = id
      · rw [if_pos h2i] at h2
        rw [← Option.some.inj h2, hel] at hee
        rw [h2i]
        exact hinv.uniq id1 id sub1 sub h1 hget hee
      · rw [if_neg h2i] at h2
        exact hinv.uniq id1 id2 sub1 sub2 h1 h2 hee

/-- `updateSubscriber` without an effective rename leaves the index alone and
replaces the record in place. -/
theorem updateSubscriber_same_state {m : SubscriberManager} {id : Nat}
    {d : SubscriberUpdate} {sub : Subscriber} (hget : alGet m.subscribers id = some sub)
    (hd : d.eventListener = none ∨ d.eventListener = some sub.eventListener) :
    (updateSubscriber m id d).1 =
      { m with subscribers := alSet m.subscribers id (mergeSubscriber sub d m.time) } := by
  rw [updateSubscriber, hget]
  rcases hd with hnone | hsame
  · rw [hnone]
  · rw [hsame]
    simp only []
    rw [if_neg (by simp)]

/-- A no-rename `updateSubscriber` preserves the registry invariant. -/
theorem updateSubscriber_inv {m : SubscriberManager} (hinv : RegInv m) (id : Nat)
    (d : SubscriberUpdate)
    (hd : d.eventListener = none ∨
      ∃ sub, alGet m.subscribers id = some sub ∧ d.eventListener = some sub.eventListener) :
    RegInv (updateSubscriber m id d).1 := by
  cases hget : alGet m.subscribers id with
  | none =>
    rw [updateSubscriber, hget]
    exact hinv
  | some sub =>
    have hd2 : d.eventListener = none ∨ d.eventListener = some sub.eventListener := by
      rcases hd with h | ⟨sub', hs', he'⟩
      · exact Or.inl h
      · rw [hget] at hs'
        rw [← Option.some.inj hs'] at he'
        exact Or.inr he'
    rw [updateSubscriber_same_state hget hd2]
    refine regInv_alSet_same hinv hget _ ?_ ?_
    · have := hinv.kid (id, sub) (mem_of_alGet hget)
      simpa [mergeSubscriber] using this
    · rcases hd2 with h | h
      · rw [mergeSubscriber, h]; rfl
      · rw [mergeSubscriber, h]; rfl

/-- What a successful `findSubscriberByEventListener` returns: a stored
record with the requested event name. -/
theorem find_listener_get {m : SubscriberManager} (hinv : RegInv m) {e : String}
    {sub : Subscriber} (h : findSubscriberByEventListener m e = some sub) :
    alGet m.subscribers sub.id = some sub ∧ sub.eventListener = e := by
  rw [findSubscriberByEventListener] at h
  have hmem := List.mem_of_find?_eq_some h
  have hpred := List.find?_some h
  simp only [beq_iff_eq] at hpred
  rw [List.mem_map] at hmem
  obtain ⟨p, hp, hpe⟩ := hmem
  have hkid := hinv.kid p hp
  refine ⟨?_, hpred⟩
  apply alGet_of_mem hinv.keys
  have hpeq : p = (sub.id, sub) := by
    obtain ⟨p1, p2⟩ := p
    simp only at hpe hkid
    rw [hpe] at hkid ⊢
    rw [← hkid]
  rw [← hpeq]
  exact hp

/-- A fresh id is absent from the map. -/
theorem fresh_any_false {m : SubscriberManager} (hinv : RegInv m) :
    m.subscribers.any (fun p => decide (p.1 = m.nextId)) = false := by
  by_contra hc
  rw [Bool.not_eq_false, List.any_eq_true] at hc
  obtain ⟨p, hp, hpe⟩ := hc
  simp only [decide_eq_true_eq] at hpe
  have : alGet m.subscribers m.nextId = some p.2 := by
    apply alGet_of_mem hinv.keys
    rw [← hpe]
    exact hp
  exact absurd (hinv.fresh _ _ this) (by omega)

/-- Inserting a brand-new subscriber (fresh id, unused event name) and
registering it preserves the registry invariant, for any new index set `s2`
holding exactly the old members of the event's set plus the new id. -/
theorem createNew_inv {m : SubscriberManager} (hinv : RegInv m) (e : String)
    (newsub : Subscriber) (hid : newsub.id = m.nextId) (hne : newsub.eventListener = e)
    (hnolist : ∀ p ∈ m.subscribers, p.2.eventListener ≠ e)
    (s2 : List Nat) (hs2nd : s2.Nodup)
    (hs2mem : ∀ id', id' ∈ s2 ↔
      (∃ s0, alGet m.eventHandlers e = some s0 ∧ id' ∈ s0) ∨ id' = m.nextId) :
    RegInv { subscribers := alSet m.subscribers m.nextId newsub
             eventHandlers := alSet m.eventHandlers e s2
             nextId := m.nextId + 1
             time := m.time } := by
  have hany := fresh_any_false hinv
  have hnotin : ∀ e', ¬(∃ s0, alGet m.eventHandlers e' = some s0 ∧ m.nextId ∈ s0) := by
    intro e' hc
    obtain ⟨sub', hs', _⟩ := (hinv.cons e' m.nextId).mp hc
    exact absurd (hinv.fresh _ _ hs') (by omega)
  refine ⟨?_, ?_, ?_, ?_, ?_, ?_⟩
  · rw [alSet_keys_append _ _ _ hany]
    rw [List.nodup_append]
    refine ⟨hinv.keys, by simp, ?_⟩
    intro a ha hb
    simp only [List.mem_singleton] at hb
    subst hb
    rw [List.mem_map] at ha
    obtain ⟨p, hp, hpe⟩ := ha
    have hc : m.subscribers.any (fun p => decide (p.1 = m.nextId)) = true :=
      List.any_eq_true.mpr ⟨p, hp, by simp [hpe]⟩
    rw [hany] at hc
    exact absurd hc (by simp)
  · intro p hp
    rcases alSet_mem hp with rfl | hp2
    · exact hid
    · exact hinv.kid p hp2
  · intro id' sub' h
    rw [alGet_set] at h
    by_cases hii : id' = m.nextId
    · subst hii
      show m.nextId < m.nextId + 1
      omega
    · rw [if_neg hii] at h
      have := hinv.fresh id' sub' h
      show id' < m.nextId + 1
      omega
  · intro e' s h
    rw [alGet_set] at h
    by_cases he' : e' = e
    · rw [if_pos he'] at h
      rw [← Option.some.inj h]
      exact hs2nd
    · rw [if_neg he'] at h
      exact hinv.sets e' s h
  · intro e' id'
    constructor
    · rintro ⟨s, hs, hin⟩
      rw [alGet_set] at hs
      by_cases he' : e' = e
      · rw [if_pos he'] at hs
        rw [← Option.some.inj hs] at hin
        rcases (hs2mem id').mp hin with hold | rfl
        · rw [he']
          obtain ⟨sub', hsub', helsub⟩ := (hinv.cons e id').mp hold
          have hii : id' ≠ m.nextId := by
            intro hii
            rw [hii] at hsub'
            exact absurd (hinv.fresh _ _ hsub') (by omega)
          refine ⟨sub', ?_, helsub⟩
          rw [alGet_set, if_neg hii]
          exact hsub'
        · refine ⟨newsub, ?_, by rw [hne, he']⟩
          rw [alGet_set, if_pos rfl]
      · rw [if_neg he'] at hs
        obtain ⟨sub', hsub', helsub⟩ := (hinv.cons e' id').mp ⟨s, hs, hin⟩
        have hii : id' ≠ m.nextId := by
          intro hii
          rw [hii] at hsub'
          exact absurd (hinv.fresh _ _ hsub') (by omega)
        refine ⟨sub', ?_, helsub⟩
        rw [alGet_set, if_neg hii]
        exact hsub' 
    · rintro ⟨sub', hsub', helsub⟩
      rw [alGet_set] at hsub'
      by_cases hii : id' = m.nextId
      · rw [if_pos hii] at hsub'
        rw [← Option.some.inj hsub', hne] at helsub
        refine ⟨s2, ?_, ?_⟩
        · rw [alGet_set, if_pos helsub.symm]
        · rw [hs2mem]
          exact Or.inr hii
      · rw [if_neg hii] at hsub'
        obtain ⟨s0, hs0, hin0⟩ := (hinv.cons e' id').mpr ⟨sub', hsub', helsub⟩
        by_cases he' : e' = e
        · subst he'
          refine ⟨s2, ?_, ?_⟩
          · rw [alGet_set, if_pos rfl]
          · rw [hs2mem]
            exact Or.inl ⟨s0, hs0, hin0⟩
        · refine ⟨s0, ?_, hin0⟩
          rw [alGet_set, if_neg he']
          exact hs0
  · intro id1 id2 sub1 sub2 h1 h2 hee
    rw [alGet_set] at h1 h2
    by_cases h1i : id1 = m.nextId
    · rw [if_pos h1i] at h1
      by_cases h2i : id2 = m.nextId
      · rw [h1i, h2i]
      · rw [if_neg h2i] at h2
        rw [← Option.some.inj h1, hne] at hee
        exact absurd hee.symm (hnolist _ (mem_of_alGet h2))
    · rw [if_neg h1i] at h1
      by_cases h2i : id2 = m.nextId
      · rw [if_pos h2i] at h2
        rw [← Option.some.inj h2, hne] at hee
        exact absurd hee (hnolist _ (mem_of_alGet h1))
      · rw [if_neg h2i] at h2
        exact hinv.uniq id1 id2 sub1 sub2 h1 h2 hee

/-- `createSubscriber` preserves the registry invariant. -/
theorem createSubscriber_inv {m : SubscriberManager} (hinv : RegInv m)
    (d : SubscriberCreate) : RegInv (createSubscriber m d).1 := by
  rw [createSubscriber]
  cases hfind : findSubscriberByEventListener m d.eventListener with
  | some existing =>
    simp only []
    obtain ⟨hget, hel⟩ := find_listener_get hinv hfind
    exact updateSubscriber_inv hinv existing.id _
      (Or.inr ⟨existing, hget, by rw [hel]⟩)
  | none =>
    simp only []
    have hnolist : ∀ p ∈ m.subscribers, p.2.eventListener ≠ d.eventListener := by
      intro p hp
      have := List.find?_eq_none.mp (by rw [← findSubscriberByEventListener]; exact hfind)
        p.2 (List.mem_map.mpr ⟨p, hp, rfl⟩)
      simpa using this
    rw [registerEventHandler]
    cases hh : alGet m.eventHandlers d.eventListener with
    | some s =>
      exact createNew_inv hinv d.eventListener _ rfl rfl hnolist
        (setAdd s m.nextId) (setAdd_nodup (hinv.sets _ _ hh) _)
        (fun id' => by
          rw [setAdd_mem]
          constructor
          · rintro (h | h)
            · exact Or.inl ⟨s, hh, h⟩
            · exact Or.inr h
          · rintro (⟨s0, hs0, h0⟩ | h)
            · rw [hh] at hs0
              rw [Option.some.inj hs0]
              exact Or.inl h0
            · exact Or.inr h)
    | none =>
      exact createNew_inv hinv d.eventListener _ rfl rfl hnolist
        [m.nextId] (by simp)
        (fun id' => by
          simp only [List.mem_singleton]
          constructor
          · exact Or.inr
          · rintro (⟨s0, hs0, _⟩ | h)
            · rw [hh] at hs0
              exact absurd hs0 (by simp)
            · exact h)

/-- Removing one record and pruning the index accordingly preserves the
invariant, for any new index whose sets are the old ones minus the removed
id's entry under its event name. -/
theorem deleteFrom_inv {m : SubscriberManager} (hinv : RegInv m) {id : Nat}
    {sub : Subscriber} (hget : alGet m.subscribers id = some sub)
    (handlers2 : List (String × List Nat))
    (hsets : ∀ e s, alGet handlers2 e = some s → s.Nodup)
    (hmem : ∀ e id', (∃ s, alGet handlers2 e = some s ∧ id' ∈ s) ↔
      ((∃ s, alGet m.eventHandlers e = some s ∧ id' ∈ s) ∧
        ¬(id' = id ∧ e = sub.eventListener))) :
    RegInv { subscribers := m.subscribers.filter (fun p => !(decide (p.1 = id)))
             eventHandlers := handlers2
             nextId := m.nextId
             time := m.time } := by
  refine ⟨?_, ?_, ?_, hsets, ?_, ?_⟩
  · exact hinv.keys.sublist ((List.filter_sublist _).map _)
  · intro p hp
    exact hinv.kid p (List.mem_of_mem_filter hp)
  · intro id' sub' h
    rw [alGet_filterKey] at h
    split at h
    · exact absurd h (by simp)
    · exact hinv.fresh id' sub' h
  · intro e' id'
    rw [hmem]
    constructor
    · rintro ⟨hold, hnot⟩
      obtain ⟨sub', hsub', helsub⟩ := (hinv.cons e' id').mp hold
      have hii : id' ≠ id := by
        intro hii
        rw [hii] at hsub'
        rw [hget] at hsub'
        rw [← Option.some.inj hsub'] at helsub
        exact hnot ⟨hii, helsub.symm⟩
      refine ⟨sub', ?_, helsub⟩
      rw [alGet_filterKey, if_neg hii]
      exact hsub'
    · rintro ⟨sub', hsub', helsub⟩
      rw [alGet_filterKey] at hsub'
      by_cases hii : id' = id
      · rw [if_pos hii] at hsub'
        exact absurd hsub' (by simp)
      · rw [if_neg hii] at hsub'
        refine ⟨(hinv.cons e' id').mpr ⟨sub', hsub', helsub⟩, ?_⟩
        intro hc
        exact hii hc.1
  · intro id1 id2 sub1 sub2 h1 h2 hee
    rw [alGet_filterKey] at h1 h2
    split at h1
    · exact absurd h1 (by simp)
    · split at h2
      · exact absurd h2 (by simp)
      · exact hinv.uniq id1 id2 sub1 sub2 h1 h2 hee

/-- `deleteSubscriber` preserves the registry invariant. -/
theorem deleteSubscriber_inv {m : SubscriberManager} (hinv : RegInv m) (id : Nat) :
    RegInv (deleteSubscriber m id).1 := by
  rw [deleteSubscriber]
  cases hget : alGet m.subscribers id with
  | none => exact hinv
  | some sub =>
    simp only []
    rw [unregisterEventHandler]
    cases hh : alGet m.eventHandlers sub.eventListener with
    | none =>
      refine deleteFrom_inv hinv hget m.eventHandlers hinv.sets ?_
      intro e' id'
      constructor
      · intro hold
        refine ⟨hold, ?_⟩
        rintro ⟨rfl, rfl⟩
        obtain ⟨s, hs, _⟩ := hold
        rw [hh] at hs
        exact absurd hs (by simp)
      · exact And.left
    | some s =>
      simp only []
      by_cases hempty : (s.filter (fun x => !(decide (x = id)))).isEmpty = true
      · rw [if_pos hempty]
        have hallid : ∀ x ∈ s, x = id := by
          intro x hx
          by_contra hne
          have : x ∈ s.filter (fun x => !(decide (x = id))) :=
            List.mem_filter.mpr ⟨hx, by simp [hne]⟩
          rw [List.isEmpty_iff] at hempty
          rw [hempty] at this
          exact absurd this (by simp)
        refine deleteFrom_inv hinv hget (alDel m.eventHandlers sub.eventListener) ?_ ?_
        · intro e' s' h
          rw [alGet_del] at h
          split at h
          · exact absurd h (by simp)
          · exact hinv.sets e' s' h
        · intro e' id'
          constructor
          · rintro ⟨s', hs', hin'⟩
            rw [alGet_del] at hs'
            by_cases he' : e' = sub.eventListener
            · rw [if_pos he'] at hs'
              exact absurd hs' (by simp)
            · rw [if_neg he'] at hs'
              exact ⟨⟨s', hs', hin'⟩, fun hc => he' hc.2⟩
          · rintro ⟨⟨s', hs', hin'⟩, hnot⟩
            by_cases he' : e' = sub.eventListener
            · rw [he', hh] at hs'
              rw [← Option.some.inj hs'] at hin'
              exact absurd ⟨hallid id' hin', he'⟩ hnot
            · refine ⟨s', ?_, hin'⟩
              rw [alGet_del, if_neg he']
              exact hs'
      · rw [if_neg hempty]
        refine deleteFrom_inv hinv hget
          (alSet m.eventHandlers sub.eventListener
            (s.filter (fun x => !(decide (x = id))))) ?_ ?_
        · intro e' s' h
          rw [alGet_set] at h
          split at h
          · rw [← Option.some.inj h]
            exact (hinv.sets _ _ hh).filter _
          · exact hinv.sets e' s' h
        · intro e' id'
          constructor
          · rintro ⟨s', hs', hin'⟩
            rw [alGet_set] at hs'
            by_cases he' : e' = sub.eventListener
            · rw [if_pos he'] at hs'
              rw [← Option.some.inj hs'] at hin'
              obtain ⟨hin0, hne0⟩ := List.mem_filter.mp hin'
              refine ⟨⟨s, by rw [he']; exact hh, hin0⟩, ?_⟩
              rintro ⟨rfl, _⟩
              simp at hne0
            · rw [if_neg he'] at hs'
              exact ⟨⟨s', hs', hin'⟩, fun hc => he' hc.2⟩
          · rintro ⟨⟨s', hs', hin'⟩, hnot⟩
            by_cases he' : e' = sub.eventListener
            · rw [he', hh] at hs'
              rw [← Option.some.inj hs'] at hin'
              refine ⟨s.filter (fun x => !(decide (x = id))), ?_, ?_⟩
              · rw [alGet_set, if_pos he']
              · refine List.mem_filter.mpr ⟨hin', ?_⟩
                have : id' ≠ id := fun hc => hnot ⟨hc, he'⟩
                simp [this]
            · refine ⟨s', ?_, hin'⟩
              rw [alGet_set, if_neg he']
              exact hs'

/-- `deleteAllSubscribers` resets to an invariant-satisfying state. -/
theorem deleteAllSubscribers_inv (m : SubscriberManager) :
    RegInv (deleteAllSubscribers m).1 := by
  refine ⟨by simp [deleteAllSubscribers], by simp [deleteAllSubscribers], ?_, ?_, ?_, ?_⟩
  · intro id sub h
    simp [deleteAllSubscribers, alGet] at h
  · intro e s h
    simp [deleteAllSubscribers, alGet] at h
  · intro e id
    constructor
    · rintro ⟨s, hs, _⟩
      simp [deleteAllSubscribers, alGet] at hs
    · rintro ⟨sub, hs, _⟩
      simp [deleteAllSubscribers, alGet] at hs
  · intro id1 id2 sub1 sub2 h1
    simp [deleteAllSubscribers, alGet] at h1

theorem runRegOp_inv {m : SubscriberManager} (hinv : RegInv m) {op : RegOp}
    (hop : noRenameOps [op] = true) : RegInv (runRegOp m op) := by
  rw [runRegOp.eq_def]
  cases op with
  | create d => exact regInv_time (createSubscriber_inv hinv d) _
  | update id d =>
    have hd : d.eventListener = none := by
      simp [noRenameOps] at hop
      exact hop
    exact regInv_time (updateSubscriber_inv hinv id d (Or.inl hd)) _
  | del id => exact regInv_time (deleteSubscriber_inv hinv id) _
  | deleteAll => exact regInv_time (deleteAllSubscribers_inv m) _

theorem runRegOps_inv (ops : List RegOp) (hops : noRenameOps ops = true) :
    ∀ m, RegInv m → RegInv (runRegOps m ops) := by
  induction ops with
  | nil => intro m h; exact h
  | cons op rest ih =>
    intro m h
    rw [runRegOps, List.foldl_cons]
    rw [noRenameOps, List.all_cons, Bool.and_eq_true] at hops
    have h1 : noRenameOps [op] = true := by
      rw [noRenameOps, List.all_cons]
      simp [hops.1]
    have hrest := ih hops.2 (runRegOp m op) (runRegOp_inv h h1)
    rw [runRegOps] at hrest
    exact hrest

theorem getSubscribersByEvent_length_le_one {m : SubscriberManager} (hinv : RegInv m)
    (e : String) : (getSubscribersByEvent m e).length ≤ 1 := by
  rw [getSubscribersByEvent]
  cases hh : alGet m.eventHandlers e with
  | none => simp
  | some ids =>
    have hmem : ∀ i ∈ ids, ∃ sub, alGet m.subscribers i = some sub ∧
        sub.eventListener = e :=
      fun i hi => (hinv.cons e i).mp ⟨ids, hh, hi⟩
    have hn : ids.Nodup := hinv.sets e ids hh
    have hlen : ids.length ≤ 1 := by
      cases ids with
      | nil => simp
      | cons i t =>
        cases t with
        | nil => simp
        | cons j t2 =>
          obtain ⟨s1, hs1, he1⟩ := hmem i (by simp)
          obtain ⟨s2, hs2, he2⟩ := hmem j (by simp)
          have hij : i = j := hinv.uniq i j s1 s2 hs1 hs2 (he1.trans he2.symm)
          rw [List.nodup_cons] at hn
          exact absurd (hij ▸ List.mem_cons_self j t2) hn.1
    exact le_trans (List.length_filterMap_le _ _) hlen

/-- A `ping` subscription with `replicable=true`. -/
def pingT : SubscriberCreate := { eventListener := "ping", replicable := true }

/-- A `ping` subscription with `replicable=false`. -/
def pingF : SubscriberCreate := { eventListener := "ping", replicable := false }

/-- C6 counterexample: after `create "a"`, `create "b"`, and an update that
renames subscription 1 from `b` onto the already-taken name `a`, both
subscriptions coexist under `a` — listing by event name returns two entries,
contradicting "at most one Subscription exists per eventName [...] including
when an update renames a subscription's eventName". -/
theorem C6_rename_collision_counterexample :
    (getSubscribersByEvent
        (runRegOps emptyManager
          [.create { eventListener := "a", replicable := true },
           .create { eventListener := "b", replicable := true },
           .update 1 { eventListener := some "a" }]) "a").length = 2 := by rfl

/-- C6 (amended): for every operation sequence free of renaming updates, the
eventName→id index agrees exactly with the id→Subscription map, and at most
one Subscription exists per event name — creating with an existing eventName
replaces the prior entry (the `ping` re-registration ends with a single,
`replicable=false` entry). An update that renames onto an occupied eventName
breaks uniqueness (see the counterexample). -/
theorem C6_registry_consistency (ops : List RegOp) (h : noRenameOps ops = true) :
    (∀ e id,
      (∃ s, alGet (runRegOps emptyManager ops).eventHandlers e = some s ∧ id ∈ s) ↔
      (∃ sub, alGet (runRegOps emptyManager ops).subscribers id = some sub ∧
        sub.eventListener = e)) ∧
    (∀ e, (getSubscribersByEvent (runRegOps emptyManager ops) e).length ≤ 1) ∧
    ((getSubscribersByEvent (runRegOps emptyManager [.create pingT, .create pingF])
        "ping").map (fun s => (s.eventListener, s.replicable)) = [("ping", false)]) := by
  have hinv := runRegOps_inv ops h emptyManager regInv_empty
  exact ⟨hinv.cons, fun e => getSubscribersByEvent_length_le_one hinv e, by rfl⟩

/-- Witness for C6 (amended): after the two `ping` registrations (a
rename-free sequence), listing `ping` returns at most one entry. -/
theorem C6_registry_consistency_witness :
    (getSubscribersByEvent (runRegOps emptyManager [.create pingT, .create pingF])
      "ping").length ≤ 1 :=
  (C6_registry_consistency [.create pingT, .create pingF] (by rfl)).2.1 "ping"

/-! ## Claim C2: non-replicable events are never re-emitted -/

/-- A non-replicable subscriber produces no emissions, whatever the
payload. -/
theorem processSubscriber_nonreplicable {sub : Subscriber}
    (h : sub.replicable = false) (eventName : String) (data senderUuid : JValue)
    (now : Nat) (hasCallback : Bool) :
    (processSubscriber sub eventName data senderUuid now hasCallback).emits = [] := by
  rw [processSubscriber, h]
  rfl

/-- C2: when every subscription the event resolves to has `replicable=false`,
the router performs no emission at all — no sender echo, no room emit, no
broadcast — for any payload; only the backend (and the sender's own callback
channel) sees the event. -/
theorem C2_nonreplicable_no_emits (m : SubscriberManager) (eventName : String)
    (hasSpecificListener : Bool) (data senderUuid : JValue) (hasCallback : Bool)
    (now : Nat)
    (h : ∀ sub ∈ getSubscribersByEvent m eventName, sub.replicable = false) :
    (handleDynamicEvents m eventName hasSpecificListener data senderUuid
      hasCallback now).emits = [] := by
  rw [handleDynamicEvents]
  simp only []
  by_cases h1 : builtInEvents.contains eventName = true
  · rw [if_pos h1]
  · rw [if_neg h1]
    cases hasSpecificListener with
    | true => rfl
    | false =>
      rw [if_neg (by decide : ¬(false = true))]
      by_cases h2 : (getSubscribersByEvent m eventName).isEmpty = true
      · rw [if_pos h2]
      · rw [if_neg h2]
        show (List.map SubOutcome.emits ((getSubscribersByEvent m eventName).map
          (fun sub => processSubscriber sub eventName data senderUuid now
            hasCallback))).flatten = []
        rw [List.flatten_eq_nil_iff]
        intro l hl
        rw [List.mem_map] at hl
        obtain ⟨o, ho, rfl⟩ := hl
        rw [List.mem_map] at ho
        obtain ⟨sub, hsub, rfl⟩ := ho
        exact processSubscriber_nonreplicable (h sub hsub) _ _ _ _ _

/-- A `replicable=false` subscription on `secret`. -/
def c2sub : Subscriber :=
  { id := 0, eventListener := "secret", replicable := false, includeSender := false
    description := none, parameters := none, createdAt := 0, updatedAt := 0 }

def c2mgr : SubscriberManager :=
  { subscribers := [(0, c2sub)], eventHandlers := [("secret", [0])], nextId := 1
    time := 1 }

/-- Witness for C2: an event resolving to the non-replicable `secret`
subscription — with a room id in the payload and a callback — produces no
emission. -/
theorem C2_nonreplicable_no_emits_witness :
    (handleDynamicEvents c2mgr "secret" false (.obj [("roomId", .str "r")])
      (.str "u") true 0).emits = [] :=
  C2_nonreplicable_no_emits c2mgr "secret" false (.obj [("roomId", .str "r")])
    (.str "u") true 0
    (by
      intro sub hsub
      have he : getSubscribersByEvent c2mgr "secret" = [c2sub] := rfl
      rw [he] at hsub
      simp at hsub
      rw [hsub]
      rfl)

/-! ## Claim C8: callback discipline of the router -/

/-- A declared required string parameter `x`, used by the counterexample. -/
def c8sub : Subscriber :=
  { id := 0, eventListener := "evt", replicable := true, includeSender := false
    description := none
    parameters :=
      some [{ name := "x", type := .string, required := true, sanitize := false }]
    createdAt := 0, updatedAt := 0 }

def c8mgr : SubscriberManager :=
  { subscribers := [(0, c8sub)], eventHandlers := [("evt", [0])], nextId := 1
    time := 1 }

/-- C8 counterexample: on a validation failure the handler invokes the
callback from inside the subscriber loop with the field-level error and then
still sends the final summary reply — two invocations for one event, not
"exactly once per outcome". -/
theorem C8_double_reply_counterexample :
    (handleDynamicEvents c8mgr "evt" false (.obj []) .null true 0).replies.length
      = 2 := by rfl

/-- The emission stage never sends an error reply itself. -/
theorem emitOutcome_errorReply (sub : Subscriber) (eventName : String)
    (data sanitizedData senderUuid : JValue) (now : Nat) :
    (emitOutcome sub eventName data sanitizedData senderUuid now).errorReply
      = none := by
  rw [emitOutcome]
  simp only []
  cases hg : getFieldJs data "roomId" with
  | error e => rfl
  | ok roomId? =>
    simp only []
    rw [apply_ite SubOutcome.errorReply]
    simp

/-- Any error reply sent from inside the subscriber loop is a field-level
validation-failure reply. -/
theorem processSubscriber_errorReply {sub : Subscriber} {eventName : String}
    {data senderUuid : JValue} {now : Nat} {hasCallback : Bool} {r : Reply}
    (h : (processSubscriber sub eventName data senderUuid now hasCallback).errorReply
      = some r) : ∃ msg id, r = .validationFailed msg id := by
  rw [processSubscriber] at h
  by_cases hrep : (!sub.replicable) = true
  · rw [if_pos hrep] at h
    simp at h
  · rw [if_neg hrep] at h
    cases hv : validateForSub sub data with
    | error m =>
      rw [hv] at h
      simp only [] at h
      split at h
      · exact ⟨_, _, (Option.some.inj h).symm⟩
      · simp at h
    | ok sd =>
      rw [hv] at h
      simp only [] at h
      rw [emitOutcome_errorReply] at h
      simp at h

/-- C8 (amended): for every inbound dynamic event (not reserved, no dedicated
listener) with a callback, the router always replies and never throws past
the boundary: with no resolved subscription it replies exactly once with the
"no subscriber" error; otherwise the replies are some field-level
validation-failure replies followed by exactly one final reply — the generic
"processing failed" error if a subscriber threw, the success summary
otherwise. On a validation failure the callback is thus invoked twice
(error, then summary), not exactly once. -/
theorem C8_router_replies (m : SubscriberManager) (eventName : String)
    (data senderUuid : JValue) (now : Nat)
    (hb : builtInEvents.contains eventName = false) :
    (getSubscribersByEvent m eventName = [] →
      (handleDynamicEvents m eventName false data senderUuid true now).replies =
        [.noSubscriber eventName]) ∧
    (getSubscribersByEvent m eventName ≠ [] →
      ∃ errs last,
        (handleDynamicEvents m eventName false data senderUuid true now).replies =
          errs ++ [last] ∧
        (∀ r ∈ errs, ∃ msg id, r = .validationFailed msg id) ∧
        (last = .processingFailed ∨ last = .success eventName data)) ∧
    (handleDynamicEvents m eventName false data senderUuid true now).replies ≠ [] := by
  have hb' : ¬(builtInEvents.contains eventName = true) := by
    rw [hb]; decide
  by_cases h2 : (getSubscribersByEvent m eventName).isEmpty = true
  · have hres : handleDynamicEvents m eventName false data senderUuid true now =
        ⟨[], [.noSubscriber eventName]⟩ := by
      rw [handleDynamicEvents]
      simp only []
      rw [if_neg hb', if_neg (by decide : ¬(false = true)), if_pos h2]
      rfl
    rw [hres]
    exact ⟨fun _ => rfl, fun hne => absurd (List.isEmpty_iff.mp h2) hne, by simp⟩
  · have hres : handleDynamicEvents m eventName false data senderUuid true now =
        ⟨(((getSubscribersByEvent m eventName).map
            (fun sub => processSubscriber sub eventName data senderUuid now true)).map
            SubOutcome.emits).flatten,
          ((getSubscribersByEvent m eventName).map
            (fun sub => processSubscriber sub eventName data senderUuid now true)).filterMap
            SubOutcome.errorReply ++
          [if ((getSubscribersByEvent m eventName).map
              (fun sub => processSubscriber sub eventName data senderUuid now true)).any
              SubOutcome.threw
            then Reply.processingFailed else Reply.success eventName data]⟩ := by
      rw [handleDynamicEvents]
      simp only []
      rw [if_neg hb', if_neg (by decide : ¬(false = true)), if_neg h2]
      rfl
    rw [hres]
    refine ⟨?_, ?_, ?_⟩
    · intro he
      exact absurd (List.isEmpty_iff.mpr he) h2
    · intro _
      refine ⟨_, _, rfl, ?_, ?_⟩
      · intro r hr
        rw [List.mem_filterMap] at hr
        obtain ⟨o, ho, hor⟩ := hr
        rw [List.mem_map] at ho
        obtain ⟨sub, _, rfl⟩ := ho
        exact processSubscriber_errorReply hor
      · split
        · exact Or.inl rfl
        · exact Or.inr rfl
    · simp

/-- Witness for C8 (amended): with no subscription for `nope` the callback
gets exactly the "no subscriber" reply; with the `evt` subscription resolved
the callback always gets at least one reply. -/
theorem C8_router_replies_witness :
    (handleDynamicEvents emptyManager "nope" false (.obj []) .null true 0).replies =
      [.noSubscriber "nope"] ∧
    (handleDynamicEvents c8mgr "evt" false (.obj []) .null true 0).replies ≠ [] :=
  ⟨(C8_router_replies emptyManager "nope" (.obj []) .null 0 (by rfl)).1 (by rfl),
    (C8_router_replies c8mgr "evt" (.obj []) .null 0 (by rfl)).2.2⟩

end FSS
